import Mathlib

/-!
Verification of the easydata dependency-graph/caching engine.

This file gives a shallow embedding of the core of
`{{ cookiecutter.module_name }}/data/datasets.py` (the `Dataset` hash model and
the `DatasetGraph` traversal/generation engine) and
`{{ cookiecutter.module_name }}/data/catalog.py` (the disk-backed `Catalog`),
and proves or refutes the frozen claims about them.

Modelling conventions:
* Python `dict`s are association lists with unique keys by construction;
  `dict.items() <= other.items()` is the lookup-based subset test `dictLe`.
* The content hasher (`joblib.hash`) is an opaque parameter `h : Nat → String`
  standing for `fun v => hash_type ++ ":" ++ digest v`; payload values are `Nat`.
* Transformer step bodies are deserialized dynamically in the source and are out
  of scope; a step is an opaque id `Nat` and an application function
  `app : Nat → DsDict → DsDict` is a parameter, mirroring `transformer(dsdict)`.
* Exceptions are modelled with `Option`/`Except` (`none`/`.error` = raise).
* Python `set` iteration order is unspecified; where the source iterates a set
  built from a list we iterate the deduplicated list (a determinization that is
  irrelevant to every claim below: the relevant sets are singletons or the
  claims are order-independent).
-/

namespace Easydata

/-- A hash record: payload-field name to "{algorithm}:{digest}" string
(`Dataset` metadata key `hashes`). -/
abbrev HashDict := List (String × String)

/-- Python `a.items() <= b.items()` on dicts: every key/value pair of `a` is
present (and equal) in `b`. -/
def dictLe (a b : HashDict) : Bool :=
  a.all (fun kv => b.lookup kv.1 == some kv.2)

/-- Python `d[k] = v` on a dict serialized as an association list: replace the
value in place when the key is present, append otherwise. -/
def setEntry {κ ν : Type} [BEq κ] (l : List (κ × ν)) (k : κ) (v : ν) : List (κ × ν) :=
  if l.any (fun p => p.1 == k) then l.map (fun p => if p.1 == k then (k, v) else p)
  else l ++ [(k, v)]

/-- Python `del d[k]` on a dict serialized as an association list. -/
def delEntry {κ ν : Type} [BEq κ] (l : List (κ × ν)) (k : κ) : List (κ × ν) :=
  l.filter (fun p => !(p.1 == k))

/-- A `Dataset` metadata mapping: the mandatory `dataset_name` entry, the
optional `hashes` entry, and the remaining (string-valued) entries. -/
structure Metadata where
  dataset_name : String
  rest : List (String × String)
  hashes : Option HashDict
  deriving DecidableEq, Repr

/-- Python `a.items() <= b.items()` on metadata dicts (used by `Dataset.dump`);
the `hashes` value is itself a dict, compared extensionally as Python does. -/
def metaLe (a b : Metadata) : Bool :=
  a.dataset_name == b.dataset_name &&
  a.rest.all (fun kv => b.rest.lookup kv.1 == some kv.2) &&
  (match a.hashes, b.hashes with
   | none, _ => true
   | some ha, some hb => dictLe ha hb && dictLe hb ha
   | some _, none => false)

/-- The `Dataset` object (`datasets.py:80`): payload fields (`data`, `target`,
extras; values opaque `Nat`s) and the metadata mapping.  The source keeps
`metadata` and the name inside the same `Bunch` dict; here the payload fields
list excludes the `metadata` entry, which is held separately. -/
structure Dataset where
  fields : List (String × Nat)
  metadata : Metadata
  deriving DecidableEq, Repr

/-- `Dataset.name`: the `dataset_name` metadata entry. -/
def Dataset.name (ds : Dataset) : String := ds.metadata.dataset_name

/-- `key.startswith("__")` on the character-list representation of the
string. -/
def starts_dunder (s : String) : Bool := s.data.take 2 == ['_', '_']

/-- `Dataset._generate_data_hashes` (default arguments): hash every payload
field except `metadata` (not in `fields` here) and dunder keys. -/
def generate_data_hashes (h : Nat → String) (ds : Dataset) : HashDict :=
  (ds.fields.filter (fun kv => !(kv.1 == "metadata") && !(starts_dunder kv.1))).map
    (fun kv => (kv.1, h kv.2))

/-- `Dataset.update_hashes` (default arguments): recompute the hash record and
merge it into the metadata (`{**metadata, **{"hashes": hashes}}` replaces the
`hashes` entry wholesale). -/
def update_hashes (h : Nat → String) (ds : Dataset) : Dataset :=
  { ds with metadata := { ds.metadata with hashes := some (generate_data_hashes h ds) } }

/-- `Dataset.verify_hashes(hashdict)` with an explicit dict:
`hashdict.items() <= self.metadata['hashes'].items()`.  `none` models the
`KeyError` when the metadata has no `hashes` entry. -/
def verify_hashes (ds : Dataset) (hashdict : HashDict) : Option Bool :=
  ds.metadata.hashes.map (fun mh => dictLe hashdict mh)

/-- In a dict with no repeated keys, lookup recovers every entry. -/
theorem lookup_eq_of_mem {κ ν : Type} [BEq κ] [LawfulBEq κ] {l : List (κ × ν)}
    (hnd : (l.map Prod.fst).Nodup)
    {k : κ} {v : ν} (hm : (k, v) ∈ l) : l.lookup k = some v := by
  induction l with
  | nil => cases hm
  | cons p t ih =>
    obtain ⟨k₀, v₀⟩ := p
    simp only [List.map_cons, List.nodup_cons] at hnd
    rcases List.mem_cons.mp hm with h0 | hmem
    · cases h0
      simp [List.lookup]
    · have hk : k ≠ k₀ := by
        intro he
        exact hnd.1 (he ▸ (List.mem_map.mpr ⟨(k, v), hmem, rfl⟩))
      have hkb : (k == k₀) = false := by simpa using hk
      simp only [List.lookup, hkb]
      exact ih hnd.2 hmem

/-- A dict with no repeated keys is a subset of itself. -/
theorem dictLe_self {l : HashDict} (hnd : (l.map Prod.fst).Nodup) : dictLe l l = true := by
  unfold dictLe
  rw [List.all_eq_true]
  intro kv hm
  obtain ⟨k, v⟩ := kv
  rw [lookup_eq_of_mem hnd hm]
  simp

/-! ## Catalog (`catalog.py`)

A `Catalog` is a dict (`data`), disk-backed by one file per key inside a
directory.  A filename `f"{key}.{self.extension}"` is modelled structurally as
the pair `(stem, extension)`, mirroring `pathlib.Path.stem`/`.suffix`; the
directory is the list of its files.  `save_json`/`load_json` round-trip the
(JSON-serializable) record values, so values are stored abstractly. -/

/-- `Catalog._load(return_dict=True)`: parse every file matching the glob
`f"*.{ext}"` into a dict keyed by the filename stem. -/
def load_dir {α : Type} (files : List ((String × String) × α)) (ext : String) :
    List (String × α) :=
  (files.filter (fun p => p.1.2 == ext)).map (fun p => (p.1.1, p.2))

/-- The in-memory `Catalog` object plus the on-disk directory backing it.  The
directory itself exists whenever the catalog was obtained through
`__init__` with `create=True` (as `Catalog.load`/`Catalog.create` do). -/
structure Catalog (α : Type) where
  data : List (String × α)
  extension : String
  files : List ((String × String) × α)
  deriving DecidableEq, Repr

/-- Reloading the catalog from its on-disk serialization (`Catalog._load`). -/
def catalog_reload {α : Type} (c : Catalog α) : List (String × α) :=
  load_dir c.files c.extension

/-- `Catalog._save_item(key)`: serialize `self.data[key]` to the file
`f"{key}.{self.extension}"`.  The `none` branch is the `KeyError` on
`self.data[key]`, unreachable from `_disk_setitem`. -/
def save_item {α : Type} (c : Catalog α) (k : String) : Catalog α :=
  match c.data.lookup k with
  | some v => { c with files := setEntry c.files (k, c.extension) v }
  | none => c

/-- `Catalog._disk_setitem` (the live `__setitem__`): update the in-memory map,
then immediately write the one corresponding file. -/
def disk_setitem {α : Type} (c : Catalog α) (k : String) (v : α) : Catalog α :=
  save_item { c with data := setEntry c.data k v } k

instance {ε α : Type} [DecidableEq ε] [DecidableEq α] : DecidableEq (Except ε α) := fun x y =>
  match x, y with
  | .ok a, .ok b =>
    if h : a = b then isTrue (by rw [h]) else isFalse (by intro hc; cases hc; exact h rfl)
  | .error a, .error b =>
    if h : a = b then isTrue (by rw [h]) else isFalse (by intro hc; cases hc; exact h rfl)
  | .ok _, .error _ => isFalse (by intro hc; cases hc)
  | .error _, .ok _ => isFalse (by intro hc; cases hc)

/-- Exceptions raised by the modelled `Catalog` paths. -/
inductive CatErr
  | keyError
  | fileNotFound
  | valueError
  deriving DecidableEq, Repr

/-- `Catalog.__delitem__`: `del self.data[key]` (KeyError when absent), then
`_del_item` unlinks the file (FileNotFoundError when the file is absent). -/
def catalog_delitem {α : Type} (c : Catalog α) (k : String) :
    Except CatErr (Catalog α) :=
  if c.data.any (fun p => p.1 == k) then
    if c.files.any (fun p => p.1 == (k, c.extension)) then
      .ok { c with data := delEntry c.data k,
                   files := delEntry c.files (k, c.extension) }
    else .error .fileNotFound
  else .error .keyError

/-- One mutation of a catalog: `__setitem__` or `__delitem__`. -/
inductive CatOp (α : Type)
  | set (k : String) (v : α)
  | del (k : String)
  deriving DecidableEq, Repr

/-- Apply one operation. -/
def applyOp {α : Type} (op : CatOp α) (c : Catalog α) : Except CatErr (Catalog α) :=
  match op with
  | .set k v => .ok (disk_setitem c k v)
  | .del k => catalog_delitem c k

/-- Run a sequence of operations, stopping at the first raising operation
(which, from a consistent state, can only be a `KeyError` on a missing delete
key, raised before anything is mutated). -/
def runOps {α : Type} : List (CatOp α) → Catalog α → Catalog α
  | [], c => c
  | op :: rest, c =>
    match applyOp op c with
    | .error _ => c
    | .ok c' => runOps rest c'

/-- `Catalog.__init__` for a directory `dir` (existing or not) with the given
(initial) `data`, `create`, `delete` and `merge_priority` arguments.  Returns
the constructed catalog together with whether the directory exists afterwards.
The only raise site on this path is the unknown-`merge_priority` `ValueError`;
`_verify_save` merely logs on mismatch.  Note the merged `data` is kept
in memory only — `__init__` never bulk-saves it. -/
structure CatDir (α : Type) where
  dexists : Bool
  files : List ((String × String) × α)
  deriving DecidableEq, Repr

/-- Python dict merge `{**a, **b}`: entries of `b` override `a` in place,
fresh keys of `b` are appended in order. -/
def pyMerge {α : Type} (a b : List (String × α)) : List (String × α) :=
  b.foldl (fun acc kv => setEntry acc kv.1 kv.2) a

/-- `Catalog.__init__` (see above). -/
def catalog_init {α : Type} (dir : CatDir α) (data : List (String × α))
    (create del : Bool) (ext merge_priority : String) :
    Except CatErr (Catalog α × Bool) :=
  let dir' : CatDir α := if dir.dexists && del then ⟨false, []⟩ else dir
  let disk_data := if dir'.dexists then load_dir dir'.files ext else []
  let dexists' := if create && !dir'.dexists then true else dir'.dexists
  if data.isEmpty then
    .ok ({ data := disk_data, extension := ext, files := dir'.files }, dexists')
  else if merge_priority == "disk" then
    .ok ({ data := pyMerge data disk_data, extension := ext, files := dir'.files }, dexists')
  else if merge_priority == "data" then
    .ok ({ data := pyMerge disk_data data, extension := ext, files := dir'.files }, dexists')
  else .error .valueError

/-- `Catalog.create(name, data, replace)`:
`cls(name, create=True, delete=replace, data=data)` with the default
extension and merge priority. -/
def catalog_create {α : Type} (dir : CatDir α) (data : List (String × α))
    (replace : Bool) : Except CatErr (Catalog α × Bool) :=
  catalog_init dir data true replace "json" "data"

/-! ### Catalog round-trip lemmas

The round-trip invariant is stated extensionally (per-key lookup), which is
exactly Python dict equality. -/

theorem beq_symm_false {κ : Type} [BEq κ] [LawfulBEq κ] {a b : κ}
    (h : (a == b) = false) : (b == a) = false :=
  beq_false_of_ne (Ne.symm (ne_of_beq_false h))

theorem lookup_load_dir {α : Type} (files : List ((String × String) × α)) (ext s : String) :
    (load_dir files ext).lookup s = files.lookup (s, ext) := by
  induction files with
  | nil => rfl
  | cons p t ih =>
    obtain ⟨⟨s₀, e₀⟩, w⟩ := p
    have hpair : (((s, ext) == (s₀, e₀)) : Bool) = (s == s₀ && ext == e₀) := rfl
    cases he : (e₀ == ext) with
    | true =>
      have hee : e₀ = ext := by simpa using he
      subst hee
      have h1 : load_dir (((s₀, e₀), w) :: t) e₀ = (s₀, w) :: load_dir t e₀ := by
        simp [load_dir, List.filter_cons]
      rw [h1]
      cases hs : (s == s₀) with
      | true => simp [List.lookup, hs, hpair]
      | false => simp [List.lookup, hs, hpair, ih]
    | false =>
      have h1 : load_dir (((s₀, e₀), w) :: t) ext = load_dir t ext := by
        simp [load_dir, List.filter_cons, he]
      rw [h1]
      have hne : (ext == e₀) = false := beq_symm_false he
      simp [List.lookup, hpair, hne, ih]

theorem lookup_map_set_self {κ ν : Type} [BEq κ] [LawfulBEq κ]
    (l : List (κ × ν)) (k : κ) (v : ν) (hc : l.any (fun p => p.1 == k) = true) :
    (l.map (fun p => if p.1 == k then (k, v) else p)).lookup k = some v := by
  induction l with
  | nil => cases hc
  | cons p t ih =>
    obtain ⟨k₀, v₀⟩ := p
    cases hk : (k₀ == k) with
    | true =>
      have h1 : (if ((k₀, v₀) : κ × ν).1 == k then (k, v) else (k₀, v₀)) = (k, v) := by
        simp [hk]
      rw [List.map_cons, h1]
      simp [List.lookup]
    | false =>
      have hk' : (k == k₀) = false := beq_symm_false hk
      simp only [List.any_cons, hk, Bool.false_or] at hc
      have h1 : (if ((k₀, v₀) : κ × ν).1 == k then (k, v) else (k₀, v₀)) = (k₀, v₀) := by
        simp [hk]
      rw [List.map_cons, h1]
      simp [List.lookup, hk', ih hc]

theorem lookup_append_single_self {κ ν : Type} [BEq κ] [LawfulBEq κ]
    (l : List (κ × ν)) (k : κ) (v : ν) (hc : l.any (fun p => p.1 == k) = false) :
    ((l ++ [(k, v)]).lookup k) = some v := by
  induction l with
  | nil => simp [List.lookup]
  | cons p t ih =>
    obtain ⟨k₀, v₀⟩ := p
    simp only [List.any_cons, Bool.or_eq_false_iff] at hc
    have hk' : (k == k₀) = false := beq_symm_false hc.1
    simp [List.lookup, hk', ih hc.2]

theorem lookup_setEntry_self {κ ν : Type} [BEq κ] [LawfulBEq κ]
    (l : List (κ × ν)) (k : κ) (v : ν) : (setEntry l k v).lookup k = some v := by
  unfold setEntry
  cases hc : l.any (fun p => p.1 == k) with
  | true => simpa using lookup_map_set_self l k v hc
  | false => simpa using lookup_append_single_self l k v hc

theorem lookup_map_set_ne {κ ν : Type} [BEq κ] [LawfulBEq κ]
    (l : List (κ × ν)) (k k' : κ) (v : ν) (h : (k' == k) = false) :
    (l.map (fun p => if p.1 == k then (k, v) else p)).lookup k' = l.lookup k' := by
  induction l with
  | nil => rfl
  | cons p t ih =>
    obtain ⟨k₀, v₀⟩ := p
    cases hk : (k₀ == k) with
    | true =>
      have hk0 : k₀ = k := by simpa using hk
      subst hk0
      have h1 : (if ((k₀, v₀) : κ × ν).1 == k₀ then (k₀, v) else (k₀, v₀)) = (k₀, v) := by
        simp
      rw [List.map_cons, h1]
      simp [List.lookup, h, ih]
    | false =>
      have h1 : (if ((k₀, v₀) : κ × ν).1 == k then (k, v) else (k₀, v₀)) = (k₀, v₀) := by
        simp [hk]
      rw [List.map_cons, h1]
      cases hq : (k' == k₀) with
      | true => simp [List.lookup, hq]
      | false => simp [List.lookup, hq, ih]

theorem lookup_append_single_ne {κ ν : Type} [BEq κ] [LawfulBEq κ]
    (l : List (κ × ν)) (k k' : κ) (v : ν) (h : (k' == k) = false) :
    ((l ++ [(k, v)]).lookup k') = l.lookup k' := by
  induction l with
  | nil => simp [List.lookup, h]
  | cons p t ih =>
    obtain ⟨k₀, v₀⟩ := p
    cases hq : (k' == k₀) with
    | true => simp [List.lookup, hq]
    | false => simp [List.lookup, hq, ih]

theorem lookup_setEntry_ne {κ ν : Type} [BEq κ] [LawfulBEq κ]
    (l : List (κ × ν)) (k k' : κ) (v : ν) (h : ¬ k' = k) :
    (setEntry l k v).lookup k' = l.lookup k' := by
  have hk' : (k' == k) = false := beq_false_of_ne h
  unfold setEntry
  cases hc : l.any (fun p => p.1 == k) with
  | true => simpa using lookup_map_set_ne l k k' v hk'
  | false => simpa using lookup_append_single_ne l k k' v hk'

theorem lookup_delEntry_self {κ ν : Type} [BEq κ] [LawfulBEq κ]
    (l : List (κ × ν)) (k : κ) : (delEntry l k).lookup k = none := by
  induction l with
  | nil => rfl
  | cons p t ih =>
    obtain ⟨k₀, v₀⟩ := p
    cases hk : (k₀ == k) with
    | true =>
      have h1 : delEntry ((k₀, v₀) :: t) k = delEntry t k := by
        simp [delEntry, List.filter_cons, hk]
      rw [h1, ih]
    | false =>
      have hk' : (k == k₀) = false := beq_symm_false hk
      have h1 : delEntry ((k₀, v₀) :: t) k = (k₀, v₀) :: delEntry t k := by
        simp [delEntry, List.filter_cons, hk]
      rw [h1]
      simp [List.lookup, hk', ih]

theorem lookup_delEntry_ne {κ ν : Type} [BEq κ] [LawfulBEq κ]
    (l : List (κ × ν)) (k k' : κ) (h : ¬ k' = k) :
    (delEntry l k).lookup k' = l.lookup k' := by
  have hk' : (k' == k) = false := beq_false_of_ne h
  induction l with
  | nil => rfl
  | cons p t ih =>
    obtain ⟨k₀, v₀⟩ := p
    cases hk : (k₀ == k) with
    | true =>
      have hk0 : k₀ = k := by simpa using hk
      subst hk0
      have h1 : delEntry ((k₀, v₀) :: t) k₀ = delEntry t k₀ := by
        simp [delEntry, List.filter_cons]
      rw [h1, ih]
      simp [List.lookup, hk']
    | false =>
      have h1 : delEntry ((k₀, v₀) :: t) k = (k₀, v₀) :: delEntry t k := by
        simp [delEntry, List.filter_cons, hk]
      rw [h1]
      cases hq : (k' == k₀) with
      | true => simp [List.lookup, hq]
      | false => simp [List.lookup, hq, ih]

theorem disk_setitem_eq {α : Type} (c : Catalog α) (k : String) (v : α) :
    disk_setitem c k v
      = { data := setEntry c.data k v, extension := c.extension,
          files := setEntry c.files (k, c.extension) v } := by
  unfold disk_setitem save_item
  simp [lookup_setEntry_self]

theorem delitem_ok_eq {α : Type} (c : Catalog α) (k : String) (c' : Catalog α)
    (hd : catalog_delitem c k = .ok c') :
    c' = { data := delEntry c.data k, extension := c.extension,
           files := delEntry c.files (k, c.extension) } := by
  unfold catalog_delitem at hd
  by_cases h1 : (c.data.any (fun p => p.1 == k)) = true
  · rw [if_pos h1] at hd
    by_cases h2 : (c.files.any (fun p => p.1 == (k, c.extension))) = true
    · rw [if_pos h2] at hd
      exact (Except.ok.inj hd).symm
    · rw [if_neg h2] at hd
      cases hd
  · rw [if_neg h1] at hd
    cases hd

theorem consistent_disk_setitem {α : Type} (c : Catalog α) (k : String) (v : α)
    (h : ∀ s, (catalog_reload c).lookup s = c.data.lookup s) :
    ∀ s, (catalog_reload (disk_setitem c k v)).lookup s
      = (disk_setitem c k v).data.lookup s := by
  intro s
  rw [disk_setitem_eq]
  show (load_dir (setEntry c.files (k, c.extension) v) c.extension).lookup s
    = (setEntry c.data k v).lookup s
  rw [lookup_load_dir]
  by_cases hs : s = k
  · subst hs
    rw [lookup_setEntry_self, lookup_setEntry_self]
  · rw [lookup_setEntry_ne _ _ _ _ (fun hc => hs (congrArg Prod.fst hc)),
        lookup_setEntry_ne _ _ _ _ hs, ← lookup_load_dir]
    exact h s

theorem consistent_delitem {α : Type} (c : Catalog α) (k : String) (c' : Catalog α)
    (hd : catalog_delitem c k = .ok c')
    (h : ∀ s, (catalog_reload c).lookup s = c.data.lookup s) :
    ∀ s, (catalog_reload c').lookup s = c'.data.lookup s := by
  intro s
  rw [delitem_ok_eq c k c' hd]
  show (load_dir (delEntry c.files (k, c.extension)) c.extension).lookup s
    = (delEntry c.data k).lookup s
  rw [lookup_load_dir]
  by_cases hs : s = k
  · subst hs
    rw [lookup_delEntry_self, lookup_delEntry_self]
  · rw [lookup_delEntry_ne _ _ _ (fun hc => hs (congrArg Prod.fst hc)),
        lookup_delEntry_ne _ _ _ hs, ← lookup_load_dir]
    exact h s

theorem runOps_consistent {α : Type} (ops : List (CatOp α)) :
    ∀ c : Catalog α, (∀ s, (catalog_reload c).lookup s = c.data.lookup s) →
      ∀ s, (catalog_reload (runOps ops c)).lookup s = (runOps ops c).data.lookup s := by
  induction ops with
  | nil => intro c h s; exact h s
  | cons op rest ih =>
    intro c h s
    cases op with
    | set k v =>
      show (catalog_reload (runOps rest (disk_setitem c k v))).lookup s = _
      exact ih (disk_setitem c k v) (consistent_disk_setitem c k v h) s
    | del k =>
      cases hd : catalog_delitem c k with
      | error e =>
        have hstep : runOps (CatOp.del k :: rest) c = c := by
          show (match catalog_delitem c k with
                | .error _ => c
                | .ok c' => runOps rest c') = c
          rw [hd]
        rw [hstep]
        exact h s
      | ok c' =>
        have hstep : runOps (CatOp.del k :: rest) c = runOps rest c' := by
          show (match catalog_delitem c k with
                | .error _ => c
                | .ok c' => runOps rest c') = runOps rest c'
          rw [hd]
        rw [hstep]
        exact ih c' (consistent_delitem c k c' hd h) s

/-- Claim C5: for every sequence of Set (`__setitem__`) and Delete
(`__delitem__`) operations on a `Catalog` of (JSON-serializable) records, each
operation immediately updates the single on-disk file for that key and leaves
all other keys' files unchanged, so reloading the catalog from disk yields a
mapping equal (as a mapping, i.e. Python dict equality) to the in-memory state
at the time of the last operation. -/
theorem c5_catalog_roundtrip {α : Type} (c : Catalog α) (ops : List (CatOp α))
    (s k : String) (v : α) (fk : String × String)
    (k₂ : String) (fk₂ : String × String) (c' : Catalog α)
    (hcons : catalog_reload c = c.data) :
    ((catalog_reload (runOps ops c)).lookup s = (runOps ops c).data.lookup s)
  ∧ ((disk_setitem c k v).files.lookup (k, c.extension) = some v)
  ∧ (fk.1 ≠ k → (disk_setitem c k v).files.lookup fk = c.files.lookup fk)
  ∧ (fk₂.1 ≠ k₂ → catalog_delitem c k₂ = .ok c' →
       c'.files.lookup fk₂ = c.files.lookup fk₂)
  ∧ (catalog_delitem c k₂ = .ok c' →
       c'.files.lookup (k₂, c.extension) = none) := by
  refine ⟨?_, ?_, ?_, ?_, ?_⟩
  · exact runOps_consistent ops c (fun s' => by rw [hcons]) s
  · rw [disk_setitem_eq]
    exact lookup_setEntry_self _ _ _
  · intro hne
    rw [disk_setitem_eq]
    exact lookup_setEntry_ne _ _ _ _ (fun hc => hne (congrArg Prod.fst hc))
  · intro hne hd
    rw [delitem_ok_eq c k₂ c' hd]
    exact lookup_delEntry_ne _ _ _ (fun hc => hne (congrArg Prod.fst hc))
  · intro hd
    rw [delitem_ok_eq c k₂ c' hd]
    exact lookup_delEntry_self _ _

/-- A small concrete catalog used as the witness input for C5. -/
def c5ex : Catalog Nat :=
  { data := [("a", 1)], extension := "json", files := [(("a", "json"), 1)] }

/-- A concrete operation sequence used as the witness input for C5. -/
def c5ops : List (CatOp Nat) := [.set "b" 2, .del "a", .set "b" 3]

/-- Witness for C5: the theorem applied to a concrete catalog, operation
sequence and keys, every hypothesis discharged by evaluation. -/
theorem c5_catalog_roundtrip_witness :
    (catalog_reload c5ex = c5ex.data)
  ∧ ((catalog_reload (runOps c5ops c5ex)).lookup "b" = (runOps c5ops c5ex).data.lookup "b")
  ∧ ((disk_setitem c5ex "b" 5).files.lookup ("b", c5ex.extension) = some 5)
  ∧ ((disk_setitem c5ex "b" 5).files.lookup ("a", "json") = c5ex.files.lookup ("a", "json"))
  ∧ ((Catalog.mk ([] : List (String × Nat)) "json" []).files.lookup ("b", "json")
       = c5ex.files.lookup ("b", "json"))
  ∧ ((Catalog.mk ([] : List (String × Nat)) "json" []).files.lookup ("a", c5ex.extension) = none) := by
  have T := c5_catalog_roundtrip c5ex c5ops "b" "b" 5 ("a", "json") "a" ("b", "json")
    (Catalog.mk ([] : List (String × Nat)) "json" []) (by decide)
  exact ⟨by decide, T.1, T.2.1, T.2.2.1 (by decide), T.2.2.2.1 (by decide) (by decide),
    T.2.2.2.2 (by decide)⟩

/-- Claim C7 (code-bug demonstration): `Catalog.create(name, data, replace)`
evaluated at an existing directory with `replace` unset returns a catalog
without raising — the existing entries are loaded and `data` is merged over
them — although both the claim and the method's own docstring ("If False, an
error is thrown if the catalog exists") promise an error.  The second and
third conjuncts show that the rest of the claim does hold: `replace=True`
wipes the directory first, and with no pre-existing directory the catalog is
created. -/
theorem c7_create_no_error_on_existing :
    (catalog_create (⟨true, [(("a", "json"), (0 : Nat))]⟩ : CatDir Nat) [("b", 1)] false
       = .ok ({ data := [("a", 0), ("b", 1)], extension := "json",
                files := [(("a", "json"), 0)] }, true))
  ∧ (catalog_create (⟨true, [(("a", "json"), (0 : Nat))]⟩ : CatDir Nat) [("b", 1)] true
       = .ok ({ data := [("b", 1)], extension := "json", files := [] }, true))
  ∧ (catalog_create (⟨false, []⟩ : CatDir Nat) [("b", 1)] false
       = .ok ({ data := [("b", 1)], extension := "json", files := [] }, true)) := by
  refine ⟨by decide, by decide, by decide⟩

/-! ## DatasetGraph (`datasets.py:1559`)

State: the `transformers` and `datasets` catalogs (in-memory dict ≡ on-disk
files: each `Catalog` write goes straight to disk, see C5), and the processed
data directory holding, per dumped artifact, a `{name}.metadata` file and a
`{name}.dataset` file. -/

/-- A transformer catalog entry (hyperedge): ordered `input_datasets` (the
empty list models both an empty and a missing field — `is_source` and every
`.get('input_datasets', ...)` site treat them alike), ordered
`output_datasets`, and the ordered `transformations` pipeline (opaque step
ids, resolved dynamically in the source). -/
structure Edge where
  input_datasets : List String
  output_datasets : List String
  transformations : List Nat
  deriving DecidableEq, Repr

/-- The `DatasetGraph` state together with the on-disk artifact files. -/
structure GState where
  transformers : List (String × Edge)
  datasets : List (String × Metadata)
  metaFiles : List (String × Metadata)
  dsFiles : List (String × Dataset)
  deriving DecidableEq, Repr

/-- `DatasetGraph.find_child(node)`: scan the transformer catalog in order for
the first edge listing `node` among its outputs; return its inputs, its name
and its outputs.  `none` models the `NotFoundError`.  (The source wraps
parents and siblings in `set(...)`; the ordered lists are kept here and
deduplicated at the use site.) -/
def find_child_in : List (String × Edge) → String → Option (List String × String × List String)
  | [], _ => none
  | (hename, he) :: rest, node =>
    if node ∈ he.output_datasets then some (he.input_datasets, hename, he.output_datasets)
    else find_child_in rest node

/-- `DatasetGraph.find_child` over the graph state. -/
def find_child (st : GState) (node : String) :
    Option (List String × String × List String) :=
  find_child_in st.transformers node

/-- `DatasetGraph.is_source(edge)`:
`not self.transformers[edge].get('input_datasets', False)`.  `none` models the
`KeyError` on a missing edge. -/
def is_source (st : GState) (edge : String) : Option Bool :=
  (st.transformers.lookup edge).map (fun he => he.input_datasets.isEmpty)

/-- `DatasetGraph.check_dataset_hashes(ds_name, hash_dict)`: when the catalog
entry records a non-empty hash dict, test
`hash_dict.items() <= catalog_hashes.items()`; otherwise vacuously true.
`none` models the `KeyError` on `self.datasets[ds_name]`. -/
def check_dataset_hashes (st : GState) (ds_name : String) (hash_dict : HashDict) :
    Option Bool :=
  match st.datasets.lookup ds_name with
  | none => none
  | some entry =>
    match entry.hashes with
    | none => some true
    | some ch => if ch.isEmpty then some true else some (dictLe hash_dict ch)

/-- The loop body of `DatasetGraph.fully_satisfied`: for each input in order,
load its on-disk metadata (`Dataset.from_disk(..., metadata_only=True,
errors=False, check_hashes=False)`: with BOTH `{name}.metadata` and
`{name}.dataset` absent it returns `None`, so the loop returns `False`; with
only the metadata file absent, `open(metadata_fq)` raises
`FileNotFoundError`, modelled `none`), require a datasets catalog entry
(`NotFoundError` otherwise, modelled `none`), then check the on-disk hash
record (`ds_meta['hashes']`; `KeyError` → `none`) against the catalog. -/
def check_inputs (st : GState) : List String → Option Bool
  | [] => some true
  | n :: rest =>
    match st.metaFiles.lookup n with
    | none =>
      match st.dsFiles.lookup n with
      | none => some false
      | some _ => none
    | some md =>
      if (st.datasets.lookup n).isSome then
        match md.hashes with
        | none => none
        | some dh =>
          match check_dataset_hashes st n dh with
          | none => none
          | some b => if b then check_inputs st rest else some false
      else none

/-- `DatasetGraph.fully_satisfied(edge)`: sources are always satisfied;
otherwise every input must be cached on disk with hashes passing
`check_dataset_hashes`. -/
def fully_satisfied (st : GState) (edge : String) : Option Bool :=
  match st.transformers.lookup edge with
  | none => none
  | some he =>
    if he.input_datasets.isEmpty then some true
    else check_inputs st he.input_datasets

/-- Result of `DatasetGraph.traverse`: the (reversed, sources-first) visited
node and edge name lists, an exception (`NotFoundError`/`KeyError` from
`find_child`/`fully_satisfied`), or exhausted fuel (proved unreachable, see
C10: the source's `while queue:` loop always terminates). -/
inductive TRes
  | ok (nodes edges : List String)
  | err
  | fuelOut
  deriving DecidableEq, Repr

/-- `queue.pop(0)` (breadth-first) or `queue.pop(-1)` (depth-first): the
popped element. -/
def pop_vertex (bfs : Bool) (v : String) (rest : List String) : String :=
  if bfs then v else (v :: rest).getLast (by simp)

/-- `queue.pop(0)` or `queue.pop(-1)`: the remaining queue. -/
def pop_rest (bfs : Bool) (v : String) (rest : List String) : List String :=
  if bfs then rest else (v :: rest).dropLast

/-- The `while queue:` loop of `DatasetGraph.traverse`.  `bfs` selects the pop
position (`queue.pop(0)` breadth-first / `queue.pop(-1)` depth-first);
`queue.extend(parents - set(visited))` appends the unvisited parents (the
Python set is iterated here in first-occurrence order). -/
def traverse_loop (st : GState) (bfs exhaustive : Bool) :
    Nat → List String → List String → List String → TRes
  | _, [], visited, edges => .ok visited.reverse edges.reverse
  | 0, _ :: _, _, _ => .fuelOut
  | fuel + 1, v :: rest, visited, edges =>
    if pop_vertex bfs v rest ∈ visited then
      traverse_loop st bfs exhaustive fuel (pop_rest bfs v rest) visited edges
    else
      match find_child st (pop_vertex bfs v rest) with
      | none => .err
      | some (parents, edge, _siblings) =>
        match fully_satisfied st edge with
        | none => .err
        | some satisfied =>
          traverse_loop st bfs exhaustive fuel
            (if exhaustive || !satisfied then
              pop_rest bfs v rest ++ (parents.dedup.filter
                (fun p => !((visited ++ [pop_vertex bfs v rest]).contains p)))
            else pop_rest bfs v rest)
            (visited ++ [pop_vertex bfs v rest]) (edges ++ [edge])

/-- Every name that can ever enter the traversal queue besides the start node:
the inputs of all edges. -/
def all_inputs (st : GState) : List String :=
  st.transformers.flatMap (fun p => p.2.input_datasets)

/-- `DatasetGraph.traverse(node, kind, exhaustive)`: run the loop from
`queue = [node]`, `visited = []`, with enough fuel for the worst case (the
fuel bound is proved sufficient in C10). -/
def traverse (st : GState) (bfs exhaustive : Bool) (node : String) : TRes :=
  traverse_loop st bfs exhaustive
    ((node :: all_inputs st).length * ((node :: all_inputs st).length + 1) + 1)
    [node] [] []

/-! ### Termination of the traversal loop -/

theorem find_child_in_mem {l : List (String × Edge)} {node : String}
    {parents : List String} {edge : String} {sibs : List String}
    (hfc : find_child_in l node = some (parents, edge, sibs)) :
    ∃ he : Edge, (edge, he) ∈ l ∧ parents = he.input_datasets ∧ sibs = he.output_datasets := by
  induction l with
  | nil => cases hfc
  | cons p rest ih =>
    obtain ⟨hename, he⟩ := p
    by_cases hm : node ∈ he.output_datasets
    · rw [show find_child_in ((hename, he) :: rest) node
          = some (he.input_datasets, hename, he.output_datasets) from by
            simp [find_child_in, hm]] at hfc
      have h := Option.some.inj hfc
      have h1 : he.input_datasets = parents := congrArg Prod.fst h
      have h2 : hename = edge := congrArg (fun q => q.2.1) h
      have h3 : he.output_datasets = sibs := congrArg (fun q => q.2.2) h
      exact ⟨he, by rw [← h2]; exact List.mem_cons_self _ _, h1.symm, h3.symm⟩
    · rw [show find_child_in ((hename, he) :: rest) node = find_child_in rest node from by
        simp [find_child_in, hm]] at hfc
      obtain ⟨he', hmem, h1, h2⟩ := ih hfc
      exact ⟨he', List.mem_cons_of_mem _ hmem, h1, h2⟩

theorem find_child_parents_mem {st : GState} {node : String}
    {parents : List String} {edge : String} {sibs : List String}
    (hfc : find_child st node = some (parents, edge, sibs)) :
    ∀ p ∈ parents, p ∈ all_inputs st := by
  obtain ⟨he, hmem, hp, _⟩ := find_child_in_mem hfc
  intro p hpp
  exact List.mem_flatMap.mpr ⟨(edge, he), hmem, by rw [← hp]; exact hpp⟩

/-- Step lemma: popping an already-visited vertex. -/
theorem traverse_loop_visited {st : GState} {bfs ex : Bool} {fuel : Nat}
    {v : String} {rest visited edges : List String}
    (h : pop_vertex bfs v rest ∈ visited) :
    traverse_loop st bfs ex (fuel + 1) (v :: rest) visited edges
      = traverse_loop st bfs ex fuel (pop_rest bfs v rest) visited edges := by
  show (if pop_vertex bfs v rest ∈ visited then
      traverse_loop st bfs ex fuel (pop_rest bfs v rest) visited edges
    else _) = _
  rw [if_pos h]

/-- Step lemma: a fresh vertex with no producing edge raises `NotFoundError`. -/
theorem traverse_loop_err_fc {st : GState} {bfs ex : Bool} {fuel : Nat}
    {v : String} {rest visited edges : List String}
    (hvis : pop_vertex bfs v rest ∉ visited)
    (hfc : find_child st (pop_vertex bfs v rest) = none) :
    traverse_loop st bfs ex (fuel + 1) (v :: rest) visited edges = .err := by
  show (if pop_vertex bfs v rest ∈ visited then _
    else match find_child st (pop_vertex bfs v rest) with
      | none => TRes.err
      | some (parents, edge, _siblings) =>
        match fully_satisfied st edge with
        | none => TRes.err
        | some satisfied =>
          traverse_loop st bfs ex fuel
            (if ex || !satisfied then
              pop_rest bfs v rest ++ (parents.dedup.filter
                (fun p => !((visited ++ [pop_vertex bfs v rest]).contains p)))
            else pop_rest bfs v rest)
            (visited ++ [pop_vertex bfs v rest]) (edges ++ [edge])) = TRes.err
  rw [if_neg hvis, hfc]

/-- Step lemma: visiting a fresh vertex whose edge satisfiability check
raises. -/
theorem traverse_loop_err_fs {st : GState} {bfs ex : Bool} {fuel : Nat}
    {v edge : String} {rest visited edges parents sibs : List String}
    (hvis : pop_vertex bfs v rest ∉ visited)
    (hfc : find_child st (pop_vertex bfs v rest) = some (parents, edge, sibs))
    (hfs : fully_satisfied st edge = none) :
    traverse_loop st bfs ex (fuel + 1) (v :: rest) visited edges = .err := by
  show (if pop_vertex bfs v rest ∈ visited then _
    else match find_child st (pop_vertex bfs v rest) with
      | none => TRes.err
      | some (parents, edge, _siblings) =>
        match fully_satisfied st edge with
        | none => TRes.err
        | some satisfied =>
          traverse_loop st bfs ex fuel
            (if ex || !satisfied then
              pop_rest bfs v rest ++ (parents.dedup.filter
                (fun p => !((visited ++ [pop_vertex bfs v rest]).contains p)))
            else pop_rest bfs v rest)
            (visited ++ [pop_vertex bfs v rest]) (edges ++ [edge])) = TRes.err
  rw [if_neg hvis, hfc]
  show (match fully_satisfied st edge with
    | none => TRes.err
    | some satisfied =>
      traverse_loop st bfs ex fuel
        (if ex || !satisfied then
          pop_rest bfs v rest ++ (parents.dedup.filter
            (fun p => !((visited ++ [pop_vertex bfs v rest]).contains p)))
        else pop_rest bfs v rest)
        (visited ++ [pop_vertex bfs v rest]) (edges ++ [edge])) = TRes.err
  rw [hfs]

/-- Step lemma: visiting a fresh vertex. -/
theorem traverse_loop_step {st : GState} {bfs ex : Bool} {fuel : Nat}
    {v edge : String} {rest visited edges parents sibs : List String} {satisfied : Bool}
    (hvis : pop_vertex bfs v rest ∉ visited)
    (hfc : find_child st (pop_vertex bfs v rest) = some (parents, edge, sibs))
    (hfs : fully_satisfied st edge = some satisfied) :
    traverse_loop st bfs ex (fuel + 1) (v :: rest) visited edges
      = traverse_loop st bfs ex fuel
          (if ex || !satisfied then
            pop_rest bfs v rest ++ (parents.dedup.filter
              (fun p => !((visited ++ [pop_vertex bfs v rest]).contains p)))
          else pop_rest bfs v rest)
          (visited ++ [pop_vertex bfs v rest]) (edges ++ [edge]) := by
  show (if pop_vertex bfs v rest ∈ visited then
      traverse_loop st bfs ex fuel (pop_rest bfs v rest) visited edges
    else match find_child st (pop_vertex bfs v rest) with
      | none => TRes.err
      | some (parents, edge, _siblings) =>
        match fully_satisfied st edge with
        | none => TRes.err
        | some satisfied =>
          traverse_loop st bfs ex fuel
            (if ex || !satisfied then
              pop_rest bfs v rest ++ (parents.dedup.filter
                (fun p => !((visited ++ [pop_vertex bfs v rest]).contains p)))
            else pop_rest bfs v rest)
            (visited ++ [pop_vertex bfs v rest]) (edges ++ [edge]))
    = traverse_loop st bfs ex fuel
        (if ex || !satisfied then
          pop_rest bfs v rest ++ (parents.dedup.filter
            (fun p => !((visited ++ [pop_vertex bfs v rest]).contains p)))
        else pop_rest bfs v rest)
        (visited ++ [pop_vertex bfs v rest]) (edges ++ [edge])
  rw [if_neg hvis, hfc]
  show (match fully_satisfied st edge with
    | none => TRes.err
    | some satisfied =>
      traverse_loop st bfs ex fuel
        (if ex || !satisfied then
          pop_rest bfs v rest ++ (parents.dedup.filter
            (fun p => !((visited ++ [pop_vertex bfs v rest]).contains p)))
        else pop_rest bfs v rest)
        (visited ++ [pop_vertex bfs v rest]) (edges ++ [edge]))
    = traverse_loop st bfs ex fuel
        (if ex || !satisfied then
          pop_rest bfs v rest ++ (parents.dedup.filter
            (fun p => !((visited ++ [pop_vertex bfs v rest]).contains p)))
        else pop_rest bfs v rest)
        (visited ++ [pop_vertex bfs v rest]) (edges ++ [edge])
  rw [hfs]

theorem pop_vertex_mem {bfs : Bool} {v : String} {rest : List String} :
    pop_vertex bfs v rest ∈ v :: rest := by
  cases bfs with
  | true => simp [pop_vertex]
  | false =>
    show (v :: rest).getLast (by simp) ∈ v :: rest
    exact List.getLast_mem _

theorem pop_rest_subset {bfs : Bool} {v : String} {rest : List String} :
    ∀ x ∈ pop_rest bfs v rest, x ∈ v :: rest := by
  intro x hx
  cases bfs with
  | true => exact List.mem_cons_of_mem v (by simpa [pop_rest] using hx)
  | false =>
    exact (List.dropLast_sublist (v :: rest)).subset (by simpa [pop_rest] using hx)

theorem pop_rest_length {bfs : Bool} {v : String} {rest : List String} :
    (pop_rest bfs v rest).length = rest.length := by
  cases bfs with
  | true => simp [pop_rest]
  | false => simp [pop_rest]

/-- The fuel measure showing the `while queue:` loop always terminates. -/
def tmeasure (U visited queue : List String) : Nat :=
  (U.toFinset \ visited.toFinset).card * (U.length + 1) + queue.length

theorem traverse_loop_ne_fuelOut (st : GState) (bfs ex : Bool) (U : List String)
    (hU : ∀ v ∈ all_inputs st, v ∈ U) :
    ∀ (fuel : Nat) (queue visited edges : List String),
      (∀ v ∈ queue, v ∈ U) →
      tmeasure U visited queue ≤ fuel →
      traverse_loop st bfs ex fuel queue visited edges ≠ .fuelOut := by
  intro fuel
  induction fuel with
  | zero =>
    intro queue visited edges hq hm
    match queue with
    | [] => simp [traverse_loop]
    | v :: rest =>
      exfalso
      unfold tmeasure at hm
      simp only [List.length_cons] at hm
      omega
  | succ fuel ih =>
    intro queue visited edges hq hm
    match queue with
    | [] => simp [traverse_loop]
    | v :: rest =>
      have hvU : pop_vertex bfs v rest ∈ U := hq _ pop_vertex_mem
      have hq' : ∀ x ∈ pop_rest bfs v rest, x ∈ U := fun x hx => hq x (pop_rest_subset x hx)
      by_cases hvis : pop_vertex bfs v rest ∈ visited
      · rw [traverse_loop_visited hvis]
        apply ih _ visited edges hq'
        unfold tmeasure at hm ⊢
        rw [pop_rest_length]
        simp only [List.length_cons] at hm
        generalize (U.toFinset \ visited.toFinset).card * (U.length + 1) = C at hm ⊢
        omega
      · cases hfc : find_child st (pop_vertex bfs v rest) with
        | none => rw [traverse_loop_err_fc hvis hfc]; simp
        | some pes =>
          obtain ⟨parents, edge, sibs⟩ := pes
          cases hfs : fully_satisfied st edge with
          | none => rw [traverse_loop_err_fs hvis hfc hfs]; simp
          | some satisfied =>
            rw [traverse_loop_step hvis hfc hfs]
            have hpar : ∀ p ∈ parents, p ∈ U := fun p hp =>
              hU p (find_child_parents_mem hfc p hp)
            have hflt :
                (parents.dedup.filter (fun p =>
                  !((visited ++ [pop_vertex bfs v rest]).contains p))).length ≤ U.length := by
              apply (List.subperm_of_subset ((parents.nodup_dedup).filter _) ?_).length_le
              intro x hx
              exact hpar x (List.mem_dedup.mp (List.mem_filter.mp hx).1)
            have hcard : (U.toFinset \
                  (visited ++ [pop_vertex bfs v rest]).toFinset).card + 1
                ≤ (U.toFinset \ visited.toFinset).card := by
              apply Nat.succ_le_of_lt
              apply Finset.card_lt_card
              constructor
              · apply Finset.sdiff_subset_sdiff (le_refl _)
                intro x hx
                rw [List.toFinset_append]
                exact Finset.mem_union_left _ hx
              · intro hsub
                have h1 : pop_vertex bfs v rest ∈ U.toFinset \ visited.toFinset := by
                  rw [Finset.mem_sdiff]
                  exact ⟨List.mem_toFinset.mpr hvU, fun hc => hvis (List.mem_toFinset.mp hc)⟩
                have h2 := hsub h1
                rw [Finset.mem_sdiff, List.toFinset_append] at h2
                exact h2.2 (Finset.mem_union_right _ (by simp))
            have hmul : ((U.toFinset \
                  (visited ++ [pop_vertex bfs v rest]).toFinset).card) * (U.length + 1)
                    + (U.length + 1)
                ≤ (U.toFinset \ visited.toFinset).card * (U.length + 1) := by
              have := Nat.mul_le_mul_right (U.length + 1) hcard
              simpa [Nat.succ_mul] using this
            apply ih _ _ (edges ++ [edge]) ?hqq ?hmm
            case hqq =>
              intro x hx
              by_cases hsplit : (ex || !satisfied) = true
              · rw [if_pos hsplit] at hx
                rcases List.mem_append.mp hx with hx1 | hx2
                · exact hq' x hx1
                · exact hpar x (List.mem_dedup.mp (List.mem_filter.mp hx2).1)
              · rw [if_neg hsplit] at hx
                exact hq' x hx
            case hmm =>
              unfold tmeasure at hm ⊢
              have hqlen : (if ex || !satisfied then
                    pop_rest bfs v rest ++ (parents.dedup.filter
                      (fun p => !((visited ++ [pop_vertex bfs v rest]).contains p)))
                  else pop_rest bfs v rest).length ≤ rest.length + U.length := by
                by_cases hsplit : (ex || !satisfied) = true
                · rw [if_pos hsplit, List.length_append, pop_rest_length]
                  omega
                · rw [if_neg hsplit, pop_rest_length]
                  omega
              simp only [List.length_cons] at hm
              generalize hC1 : (U.toFinset \
                (visited ++ [pop_vertex bfs v rest]).toFinset).card * (U.length + 1) = C1
                  at hmul ⊢
              generalize hC2 : (U.toFinset \ visited.toFinset).card * (U.length + 1) = C2
                  at hmul hm
              omega

/-- The loop never revisits: an `.ok` result from a `Nodup` visited list has
`Nodup` nodes. -/
theorem traverse_loop_nodup (st : GState) (bfs ex : Bool) :
    ∀ (fuel : Nat) (queue visited edges nodes edgs : List String),
      visited.Nodup →
      traverse_loop st bfs ex fuel queue visited edges = .ok nodes edgs →
      nodes.Nodup := by
  intro fuel
  induction fuel with
  | zero =>
    intro queue visited edges nodes edgs hnd hok
    match queue with
    | [] =>
      have h : TRes.ok visited.reverse edges.reverse = TRes.ok nodes edgs := hok
      cases h
      simpa using hnd
    | v :: rest => cases hok
  | succ fuel ih =>
    intro queue visited edges nodes edgs hnd hok
    match queue with
    | [] =>
      have h : TRes.ok visited.reverse edges.reverse = TRes.ok nodes edgs := hok
      cases h
      simpa using hnd
    | v :: rest =>
      by_cases hvis : pop_vertex bfs v rest ∈ visited
      · rw [traverse_loop_visited hvis] at hok
        exact ih _ _ _ _ _ hnd hok
      · cases hfc : find_child st (pop_vertex bfs v rest) with
        | none => rw [traverse_loop_err_fc hvis hfc] at hok; cases hok
        | some pes =>
          obtain ⟨parents, edge, sibs⟩ := pes
          cases hfs : fully_satisfied st edge with
          | none => rw [traverse_loop_err_fs hvis hfc hfs] at hok; cases hok
          | some satisfied =>
            rw [traverse_loop_step hvis hfc hfs] at hok
            apply ih _ _ _ _ _ _ hok
            simp [List.nodup_append, hnd, hvis]


/-- Claim C10: for every finite transformer catalog — including catalogs whose
dependency relation is cyclic — and every start node that is produced by some
edge, `traverse(node)` terminates (the loop fuel, sized from the finite
catalog, is never exhausted — for either pop discipline and either
`exhaustive` setting), and a returned node list contains each node at most
once. -/
theorem c10_traverse_terminates (st : GState) (bfs ex : Bool) (node : String)
    (hprod : ∃ p ∈ st.transformers, node ∈ p.2.output_datasets) :
    traverse st bfs ex node ≠ .fuelOut
  ∧ (∀ nodes edges, traverse st bfs ex node = .ok nodes edges → nodes.Nodup) := by
  constructor
  · apply traverse_loop_ne_fuelOut st bfs ex (node :: all_inputs st)
      (fun v hv => List.mem_cons_of_mem _ hv)
    · intro v hv
      have hv' : v = node := by simpa using hv
      rw [hv']
      exact List.mem_cons_self _ _
    · unfold tmeasure
      simp only [List.toFinset_nil, Finset.sdiff_empty, List.length_cons,
        List.length_nil]
      have h1 : (node :: all_inputs st).toFinset.card ≤ (node :: all_inputs st).length :=
        List.toFinset_card_le _
      exact Nat.add_le_add_right
        (Nat.mul_le_mul_right ((node :: all_inputs st).length + 1) h1) 1
  · intro nodes edges hok
    exact traverse_loop_nodup st bfs ex _ _ _ _ _ _ List.nodup_nil hok

/-- A two-node cyclic catalog (`a` needs `b`, `b` needs `a`), the witness
input for C10. -/
def c10st : GState :=
  { transformers := [("e1", ⟨["b"], ["a"], []⟩), ("e2", ⟨["a"], ["b"], []⟩)],
    datasets := [("a", ⟨"a", [], none⟩), ("b", ⟨"b", [], none⟩)],
    metaFiles := [], dsFiles := [] }

/-- Witness for C10: on the cyclic two-node catalog, traversal from `a`
terminates with each node visited once. -/
theorem c10_traverse_terminates_witness :
    (∃ p ∈ c10st.transformers, "a" ∈ p.2.output_datasets)
  ∧ traverse c10st true false "a" ≠ .fuelOut
  ∧ (traverse c10st true false "a" = .ok ["b", "a"] ["e2", "e1"])
  ∧ (["b", "a"] : List String).Nodup :=
  ⟨by decide, (c10_traverse_terminates c10st true false "a" (by decide)).1,
   by decide,
   (c10_traverse_terminates c10st true false "a" (by decide)).2 ["b", "a"] ["e2", "e1"]
     (by decide)⟩

/-- The three-node chain `A → B → C` of single-input/single-output edges, with
a source edge producing `A`; `A` is cached on disk (metadata hash record
`hdA`) while `B` and `C` are not cached; the datasets catalog records `hA` for
`A`.  The metadata remainders, the other catalog hash entries and the
transformation pipelines are arbitrary. -/
def c1st (restA restB restC dmArest : List (String × String)) (hA hdA : HashDict)
    (hBo hCo : Option HashDict) (tsA tsB tsC : List Nat) : GState :=
  { transformers := [("eA", ⟨[], ["A"], tsA⟩), ("eB", ⟨["A"], ["B"], tsB⟩),
                     ("eC", ⟨["B"], ["C"], tsC⟩)],
    datasets := [("A", ⟨"A", restA, some hA⟩), ("B", ⟨"B", restB, hBo⟩),
                 ("C", ⟨"C", restC, hCo⟩)],
    metaFiles := [("A", ⟨"A", dmArest, some hdA⟩)],
    dsFiles := [] }

/-- Claim C1: on the chain `A → B → C` with `A` cached on disk with hashes
matching the datasets catalog and `B`, `C` not cached, non-exhaustive
`traverse("C")` returns nodes `[B, C]` (sources-first: `B` regenerated before
`C`) and processes `B`'s producing edge before `C`'s; `exhaustive=True`
additionally includes `A` (and `A`'s source edge). -/
theorem c1_traverse_chain (restA restB restC dmArest : List (String × String))
    (hA hdA : HashDict) (hBo hCo : Option HashDict) (tsA tsB tsC : List Nat)
    (hmatch : hdA = hA) (hnd : (hA.map Prod.fst).Nodup) :
    traverse (c1st restA restB restC dmArest hA hdA hBo hCo tsA tsB tsC) true false "C"
      = .ok ["B", "C"] ["eB", "eC"]
  ∧ traverse (c1st restA restB restC dmArest hA hdA hBo hCo tsA tsB tsC) true true "C"
      = .ok ["A", "B", "C"] ["eA", "eB", "eC"] := by
  rw [hmatch]
  have hfsA : fully_satisfied (c1st restA restB restC dmArest hA hA hBo hCo tsA tsB tsC)
      "eA" = some true := by
    simp [fully_satisfied, c1st, List.lookup]
  have hfsB : fully_satisfied (c1st restA restB restC dmArest hA hA hBo hCo tsA tsB tsC)
      "eB" = some true := by
    by_cases hAe : hA.isEmpty = true
    · simp [fully_satisfied, check_inputs, check_dataset_hashes, c1st, List.lookup, hAe]
    · simp [fully_satisfied, check_inputs, check_dataset_hashes, c1st, List.lookup, hAe,
        dictLe_self hnd]
  have hfsC : fully_satisfied (c1st restA restB restC dmArest hA hA hBo hCo tsA tsB tsC)
      "eC" = some false := by
    simp [fully_satisfied, check_inputs, c1st, List.lookup]
  have hfcA : find_child (c1st restA restB restC dmArest hA hA hBo hCo tsA tsB tsC) "A"
      = some ([], "eA", ["A"]) := by
    simp [find_child, find_child_in, c1st]
  have hfcB : find_child (c1st restA restB restC dmArest hA hA hBo hCo tsA tsB tsC) "B"
      = some (["A"], "eB", ["B"]) := by
    simp [find_child, find_child_in, c1st]
  have hfcC : find_child (c1st restA restB restC dmArest hA hA hBo hCo tsA tsB tsC) "C"
      = some (["B"], "eC", ["C"]) := by
    simp [find_child, find_child_in, c1st]
  have hai : all_inputs (c1st restA restB restC dmArest hA hA hBo hCo tsA tsB tsC)
      = ["A", "B"] := by
    simp [all_inputs, c1st]
  constructor
  · unfold traverse
    rw [hai]
    norm_num
    simp [traverse_loop, pop_vertex, pop_rest, hfcC, hfcB, hfsC, hfsB]
  · unfold traverse
    rw [hai]
    norm_num
    simp [traverse_loop, pop_vertex, pop_rest, hfcC, hfcB, hfcA, hfsC, hfsB, hfsA]

/-! ### Degree bookkeeping (`DatasetGraph._update_degrees`, `nodes`, `sources`)

The source's `_update_degrees` ends its per-edge input loop with a `for/else`
clause that executes unconditionally (no `break` exists) and, for source
edges, assigns `self.edges_in[node] = 0` — where `node` is whatever the loop
variable last held: the edge's last output when the edge has no inputs, or a
value leaked from a previous edge when the edge also has no outputs (a
`NameError`, modelled `none`, when nothing bound it yet). -/

/-- `DatasetGraph.nodes`: every dataset listed as an output of some transformer
(a Python set; modelled as the deduplicated list, a determinization of the
set's iteration order). -/
def nodes (st : GState) : List String :=
  (st.transformers.flatMap (fun p => p.2.output_datasets)).dedup

/-- `Counter[k] += 1`: a missing key counts as zero and is inserted. -/
def cbump (l : List (String × Nat)) (k : String) : List (String × Nat) :=
  match l.lookup k with
  | some n => setEntry l k (n + 1)
  | none => l ++ [(k, 1)]

/-- The per-edge loop of `DatasetGraph._update_degrees`, threading the leaked
Python loop variable `node` across iterations. -/
def degrees_loop : List (String × Edge) → List (String × Nat) → List (String × Nat) →
    Option String → Option (List (String × Nat) × List (String × Nat))
  | [], ein, eout, _ => some (ein, eout)
  | (_he_name, he) :: rest, ein, eout, node? =>
    let ein1 := he.output_datasets.foldl (fun a n => cbump a n) ein
    let node1 := match he.output_datasets.getLast? with
      | some x => some x
      | none => node?
    let eout1 := he.input_datasets.foldl (fun a n => cbump a n) eout
    let node2 := match he.input_datasets.getLast? with
      | some x => some x
      | none => node1
    if he.input_datasets.isEmpty then
      match node2 with
      | none => none
      | some n => degrees_loop rest (setEntry ein1 n 0) eout1 (some n)
    else degrees_loop rest ein1 eout1 node2

/-- `DatasetGraph._update_degrees`: seed both counters with every node at
zero, then run the per-edge loop. -/
def update_degrees (st : GState) : Option (List (String × Nat) × List (String × Nat)) :=
  degrees_loop st.transformers ((nodes st).map (fun n => (n, 0)))
    ((nodes st).map (fun n => (n, 0))) none

/-- `DatasetGraph.sources`:
`[n for (n, count) in self.edges_in.items() if count < 1]`. -/
def sources (st : GState) : Option (List String) :=
  (update_degrees st).map (fun d => (d.1.filter (fun p => decide (p.2 < 1))).map Prod.fst)

theorem lookup_some_any {κ ν : Type} [BEq κ] [LawfulBEq κ]
    {l : List (κ × ν)} {k : κ} {c : ν} (h : l.lookup k = some c) :
    l.any (fun p => p.1 == k) = true := by
  induction l with
  | nil => cases h
  | cons p t ih =>
    obtain ⟨k₀, v₀⟩ := p
    cases hq : (k == k₀) with
    | true =>
      have : k₀ = k := by simpa using (by simpa using hq : k = k₀).symm
      simp [List.any_cons, this]
    | false =>
      simp only [List.lookup, hq] at h
      simp [List.any_cons, ih h]

theorem setEntry_map_fst {κ ν : Type} [BEq κ] [LawfulBEq κ]
    {l : List (κ × ν)} {k : κ} {v : ν} (h : l.any (fun p => p.1 == k) = true) :
    (setEntry l k v).map Prod.fst = l.map Prod.fst := by
  unfold setEntry
  rw [if_pos h, List.map_map]
  apply List.map_congr_left
  intro p _
  cases hq : (p.1 == k) with
  | true =>
    have h1 : p.1 = k := by simpa using hq
    simp [Function.comp, hq, h1]
  | false => simp [Function.comp, hq]

theorem cbump_lookup_self {l : List (String × Nat)} {k : String} {c : Nat}
    (h : l.lookup k = some c) : (cbump l k).lookup k = some (c + 1) := by
  unfold cbump
  rw [h]
  exact lookup_setEntry_self _ _ _

theorem cbump_lookup_ne {l : List (String × Nat)} (k : String) {k' : String}
    (h : ¬ k' = k) : (cbump l k).lookup k' = l.lookup k' := by
  unfold cbump
  cases hl : l.lookup k with
  | some n => exact lookup_setEntry_ne _ _ _ _ h
  | none => exact lookup_append_single_ne _ _ _ _ (beq_false_of_ne h)

theorem cbump_map_fst {l : List (String × Nat)} {k : String} {c : Nat}
    (h : l.lookup k = some c) : (cbump l k).map Prod.fst = l.map Prod.fst := by
  unfold cbump
  rw [h]
  exact setEntry_map_fst (lookup_some_any h)

theorem foldl_cbump_map_fst (outs : List String) :
    ∀ (l : List (String × Nat)),
    (∀ m ∈ outs, ∃ c, l.lookup m = some c) →
    (outs.foldl (fun a n => cbump a n) l).map Prod.fst = l.map Prod.fst := by
  induction outs with
  | nil => intro l _; rfl
  | cons o os ih =>
    intro l hseed
    obtain ⟨c, hc⟩ := hseed o (List.mem_cons_self _ _)
    have hkeys : (cbump l o).map Prod.fst = l.map Prod.fst := cbump_map_fst hc
    have hseed' : ∀ m ∈ os, ∃ c', (cbump l o).lookup m = some c' := by
      intro m hm
      by_cases hmo : m = o
      · subst hmo
        exact ⟨c + 1, cbump_lookup_self hc⟩
      · obtain ⟨c', hc'⟩ := hseed m (List.mem_cons_of_mem _ hm)
        exact ⟨c', by rw [cbump_lookup_ne o hmo]; exact hc'⟩
    show ((o :: os).foldl (fun a n => cbump a n) l).map Prod.fst = _
    rw [List.foldl_cons, ih (cbump l o) hseed', hkeys]

theorem foldl_cbump_lookup (outs : List String) :
    ∀ (l : List (String × Nat)) (n : String) (c : Nat),
    outs.Nodup →
    (∀ m ∈ outs, ∃ c', l.lookup m = some c') →
    l.lookup n = some c →
    (outs.foldl (fun a m => cbump a m) l).lookup n
      = some (if n ∈ outs then c + 1 else c) := by
  induction outs with
  | nil => intro l n c _ _ hl; simpa using hl
  | cons o os ih =>
    intro l n c hnd hseed hl
    obtain ⟨c₀, hc₀⟩ := hseed o (List.mem_cons_self _ _)
    have hseed' : ∀ m ∈ os, ∃ c', (cbump l o).lookup m = some c' := by
      intro m hm
      by_cases hmo : m = o
      · subst hmo
        exact ⟨c₀ + 1, cbump_lookup_self hc₀⟩
      · obtain ⟨c', hc'⟩ := hseed m (List.mem_cons_of_mem _ hm)
        exact ⟨c', by rw [cbump_lookup_ne o hmo]; exact hc'⟩
    rw [List.foldl_cons]
    rw [List.nodup_cons] at hnd
    by_cases hno : n = o
    · subst hno
      have hcc : c₀ = c := by rw [hc₀] at hl; exact Option.some.inj hl
      subst hcc
      have h1 : (cbump l n).lookup n = some (c₀ + 1) := cbump_lookup_self hc₀
      rw [ih (cbump l n) n (c₀ + 1) hnd.2 hseed' h1]
      simp [hnd.1]
    · have h1 : (cbump l o).lookup n = some c := by
        rw [cbump_lookup_ne o hno]; exact hl
      rw [ih (cbump l o) n c hnd.2 hseed' h1]
      simp [List.mem_cons, hno]

/-- Characterization of the degree loop on catalogs whose outputs are globally
duplicate-free and whose source edges have exactly one output: it never
raises, preserves the counter's key list, and maps each seeded key to zero
when a source edge produces it, its count plus one when a (non-source) edge
produces it, and its previous count otherwise. -/
theorem degrees_loop_spec :
    ∀ (R : List (String × Edge)) (ein eout : List (String × Nat)) (node? : Option String),
    (R.flatMap (fun p => p.2.output_datasets)).Nodup →
    (∀ p ∈ R, p.2.input_datasets = [] → p.2.output_datasets.length = 1) →
    (∀ m ∈ R.flatMap (fun p => p.2.output_datasets), ∃ c, ein.lookup m = some c) →
    ∃ ein' eout', degrees_loop R ein eout node? = some (ein', eout')
      ∧ ein'.map Prod.fst = ein.map Prod.fst
      ∧ ∀ n c, ein.lookup n = some c →
          ein'.lookup n = some (
            if ∃ p ∈ R, p.2.input_datasets = [] ∧ n ∈ p.2.output_datasets then 0
            else if ∃ p ∈ R, n ∈ p.2.output_datasets then c + 1 else c) := by
  intro R
  induction R with
  | nil =>
    intro ein eout node? _ _ _
    refine ⟨ein, eout, rfl, rfl, ?_⟩
    intro n c hl
    simp [hl]
  | cons pe rest ih =>
    intro ein eout node? hflat hsrc1 hseed
    obtain ⟨ename, he⟩ := pe
    obtain ⟨ins, outs, tfs⟩ := he
    rw [List.flatMap_cons] at hflat hseed
    rw [List.nodup_append] at hflat
    obtain ⟨houts_nd, hrest_nd, hdisj⟩ := hflat
    have hseed_outs : ∀ m ∈ outs, ∃ c, ein.lookup m = some c := fun m hm =>
      hseed m (List.mem_append_left _ hm)
    have hseed_rest0 : ∀ m ∈ rest.flatMap (fun p => p.2.output_datasets),
        ∃ c, ein.lookup m = some c :=
      fun m hm => hseed m (List.mem_append_right _ hm)
    by_cases hins : ins = []
    · subst hins
      obtain ⟨o, ho⟩ := List.length_eq_one.mp
        (hsrc1 (ename, ⟨[], outs, tfs⟩) (List.mem_cons_self _ _) rfl)
      subst ho
      obtain ⟨c₀, hc₀⟩ := hseed_outs o (by simp)
      have hstep : degrees_loop ((ename, ⟨[], [o], tfs⟩) :: rest) ein eout node?
          = degrees_loop rest (setEntry (cbump ein o) o 0) eout (some o) := rfl
      have ho_not_rest : o ∉ rest.flatMap (fun p => p.2.output_datasets) :=
        fun hc => hdisj (by simp) hc
      have hseed_rest : ∀ m ∈ rest.flatMap (fun p => p.2.output_datasets),
          ∃ c, (setEntry (cbump ein o) o 0).lookup m = some c := by
        intro m hm
        have hmo : ¬ m = o := fun hc => ho_not_rest (hc ▸ hm)
        obtain ⟨c, hcm⟩ := hseed_rest0 m hm
        exact ⟨c, by rw [lookup_setEntry_ne _ _ _ _ hmo, cbump_lookup_ne o hmo]; exact hcm⟩
      obtain ⟨ein', eout', heq, hkeys, hval⟩ := ih (setEntry (cbump ein o) o 0) eout (some o)
        hrest_nd (fun p hp hi => hsrc1 p (List.mem_cons_of_mem _ hp) hi) hseed_rest
      refine ⟨ein', eout', by rw [hstep]; exact heq, ?_, ?_⟩
      · rw [hkeys, setEntry_map_fst (lookup_some_any (cbump_lookup_self hc₀)),
          cbump_map_fst hc₀]
      · intro n c hl
        by_cases hno : n = o
        · subst hno
          have h2 : (setEntry (cbump ein n) n 0).lookup n = some 0 := lookup_setEntry_self _ _ _
          rw [hval n 0 h2]
          have hnr1 : ¬ ∃ p ∈ rest, p.2.input_datasets = [] ∧ n ∈ p.2.output_datasets := by
            rintro ⟨p, hp, _, hm⟩
            exact ho_not_rest (List.mem_flatMap.mpr ⟨p, hp, hm⟩)
          have hnr2 : ¬ ∃ p ∈ rest, n ∈ p.2.output_datasets := by
            rintro ⟨p, hp, hm⟩
            exact ho_not_rest (List.mem_flatMap.mpr ⟨p, hp, hm⟩)
          rw [if_neg hnr1, if_neg hnr2,
            if_pos ⟨(ename, ⟨[], [n], tfs⟩), List.mem_cons_self _ _, rfl, by simp⟩]
        · have h2 : (setEntry (cbump ein o) o 0).lookup n = some c := by
            rw [lookup_setEntry_ne _ _ _ _ hno, cbump_lookup_ne o hno]
            exact hl
          rw [hval n c h2]
          have hiff1 : (∃ p ∈ (ename, Edge.mk [] [o] tfs) :: rest,
                p.2.input_datasets = [] ∧ n ∈ p.2.output_datasets)
              ↔ (∃ p ∈ rest, p.2.input_datasets = [] ∧ n ∈ p.2.output_datasets) := by
            constructor
            · rintro ⟨p, hp, hpi, hpm⟩
              rcases List.mem_cons.mp hp with rfl | hp'
              · exact absurd (by simpa using hpm) hno
              · exact ⟨p, hp', hpi, hpm⟩
            · rintro ⟨p, hp, hpi, hpm⟩
              exact ⟨p, List.mem_cons_of_mem _ hp, hpi, hpm⟩
          have hiff2 : (∃ p ∈ (ename, Edge.mk [] [o] tfs) :: rest, n ∈ p.2.output_datasets)
              ↔ (∃ p ∈ rest, n ∈ p.2.output_datasets) := by
            constructor
            · rintro ⟨p, hp, hpm⟩
              rcases List.mem_cons.mp hp with rfl | hp'
              · exact absurd (by simpa using hpm) hno
              · exact ⟨p, hp', hpm⟩
            · rintro ⟨p, hp, hpm⟩
              exact ⟨p, List.mem_cons_of_mem _ hp, hpm⟩
          simp only [hiff1, hiff2]
    · rcases hins' : ins with _ | ⟨i, is⟩
      · exact absurd hins' hins
      subst hins'
      have hstep : degrees_loop ((ename, ⟨i :: is, outs, tfs⟩) :: rest) ein eout node?
          = degrees_loop rest (outs.foldl (fun a n => cbump a n) ein)
              ((i :: is).foldl (fun a n => cbump a n) eout)
              (match (i :: is).getLast? with
               | some x => some x
               | none => (match outs.getLast? with
                          | some x => some x
                          | none => node?)) := rfl
      have hseed_rest : ∀ m ∈ rest.flatMap (fun p => p.2.output_datasets),
          ∃ c, (outs.foldl (fun a n => cbump a n) ein).lookup m = some c := by
        intro m hm
        obtain ⟨c, hcm⟩ := hseed_rest0 m hm
        exact ⟨if m ∈ outs then c + 1 else c,
          foldl_cbump_lookup outs ein m c houts_nd hseed_outs hcm⟩
      obtain ⟨ein', eout', heq, hkeys, hval⟩ :=
        ih (outs.foldl (fun a n => cbump a n) ein)
          ((i :: is).foldl (fun a n => cbump a n) eout)
          (match (i :: is).getLast? with
           | some x => some x
           | none => (match outs.getLast? with
                      | some x => some x
                      | none => node?))
          hrest_nd (fun p hp hi => hsrc1 p (List.mem_cons_of_mem _ hp) hi) hseed_rest
      refine ⟨ein', eout', by rw [hstep]; exact heq, ?_, ?_⟩
      · rw [hkeys, foldl_cbump_map_fst outs ein hseed_outs]
      · intro n c hl
        by_cases hno : n ∈ outs
        · have h2 : (outs.foldl (fun a m => cbump a m) ein).lookup n = some (c + 1) := by
            rw [foldl_cbump_lookup outs ein n c houts_nd hseed_outs hl]
            simp [hno]
          rw [hval n (c + 1) h2]
          have hn_not_rest : n ∉ rest.flatMap (fun p => p.2.output_datasets) :=
            fun hc => hdisj hno hc
          have hnr1 : ¬ ∃ p ∈ rest, p.2.input_datasets = [] ∧ n ∈ p.2.output_datasets := by
            rintro ⟨p, hp, _, hm⟩
            exact hn_not_rest (List.mem_flatMap.mpr ⟨p, hp, hm⟩)
          have hnr2 : ¬ ∃ p ∈ rest, n ∈ p.2.output_datasets := by
            rintro ⟨p, hp, hm⟩
            exact hn_not_rest (List.mem_flatMap.mpr ⟨p, hp, hm⟩)
          rw [if_neg hnr1, if_neg hnr2]
          have hcons_src : ¬ ∃ p ∈ (ename, Edge.mk (i :: is) outs tfs) :: rest,
              p.2.input_datasets = [] ∧ n ∈ p.2.output_datasets := by
            rintro ⟨p, hp, hpi, hpm⟩
            rcases List.mem_cons.mp hp with rfl | hp'
            · cases hpi
            · exact hnr1 ⟨p, hp', hpi, hpm⟩
          rw [if_neg hcons_src,
            if_pos ⟨(ename, ⟨i :: is, outs, tfs⟩), List.mem_cons_self _ _, hno⟩]
        · have h2 : (outs.foldl (fun a m => cbump a m) ein).lookup n = some c := by
            rw [foldl_cbump_lookup outs ein n c houts_nd hseed_outs hl]
            simp [hno]
          rw [hval n c h2]
          have hiff1 : (∃ p ∈ (ename, Edge.mk (i :: is) outs tfs) :: rest,
                p.2.input_datasets = [] ∧ n ∈ p.2.output_datasets)
              ↔ (∃ p ∈ rest, p.2.input_datasets = [] ∧ n ∈ p.2.output_datasets) := by
            constructor
            · rintro ⟨p, hp, hpi, hpm⟩
              rcases List.mem_cons.mp hp with rfl | hp'
              · cases hpi
              · exact ⟨p, hp', hpi, hpm⟩
            · rintro ⟨p, hp, hpi, hpm⟩
              exact ⟨p, List.mem_cons_of_mem _ hp, hpi, hpm⟩
          have hiff2 : (∃ p ∈ (ename, Edge.mk (i :: is) outs tfs) :: rest,
                n ∈ p.2.output_datasets)
              ↔ (∃ p ∈ rest, n ∈ p.2.output_datasets) := by
            constructor
            · rintro ⟨p, hp, hpm⟩
              rcases List.mem_cons.mp hp with rfl | hp'
              · exact absurd hpm hno
              · exact ⟨p, hp', hpm⟩
            · rintro ⟨p, hp, hpm⟩
              exact ⟨p, List.mem_cons_of_mem _ hp, hpm⟩
          simp only [hiff1, hiff2]

theorem lookup_map_zero (N : List String) (m : String) (hm : m ∈ N) :
    (N.map (fun n => (n, (0 : Nat)))).lookup m = some 0 := by
  induction N with
  | nil => cases hm
  | cons n ns ih =>
    cases hq : (m == n) with
    | true => simp [List.lookup, hq]
    | false =>
      have hm' : m ∈ ns := by
        rcases List.mem_cons.mp hm with rfl | hm'
        · simp at hq
        · exact hm'
      simp [List.lookup, hq, ih hm']

theorem filter_map_fst_char (d : List (String × Nat)) (q : String → Prop)
    [DecidablePred q] (hchar : ∀ p ∈ d, (p.2 < 1 ↔ q p.1)) :
    (d.filter (fun p => decide (p.2 < 1))).map Prod.fst
      = (d.map Prod.fst).filter (fun k => decide (q k)) := by
  induction d with
  | nil => rfl
  | cons p t ih =>
    have hd : (decide (p.2 < 1)) = (decide (q p.1)) :=
      decide_eq_decide.mpr (hchar p (List.mem_cons_self _ _))
    have iht := ih (fun r hr => hchar r (List.mem_cons_of_mem _ hr))
    cases hq : decide (q p.1) with
    | true =>
      rw [List.map_cons, List.filter_cons, List.filter_cons]
      rw [hd, hq]
      simp only [if_true]
      rw [List.map_cons, iht]
    | false =>
      rw [List.map_cons, List.filter_cons, List.filter_cons]
      rw [hd, hq]
      simp only [Bool.false_eq_true, if_false]
      exact iht

/-- Claim C9 (amended): for every loaded graph whose declared outputs are
globally duplicate-free (each node produced by exactly one edge, no duplicate
outputs within an edge) and whose source edges each list exactly one output,
`sources` returns exactly the nodes produced by a zero-input (source) edge —
not the nodes with zero producing edges, which for declared nodes is the empty
set.  (The general claim fails: see the counterexample.) -/
theorem c9_sources_amended (st : GState)
    (hflat : (st.transformers.flatMap (fun p => p.2.output_datasets)).Nodup)
    (hsrc1 : ∀ p ∈ st.transformers, p.2.input_datasets = [] →
      p.2.output_datasets.length = 1) :
    sources st = some ((nodes st).filter (fun n =>
      decide (∃ p ∈ st.transformers, p.2.input_datasets = [] ∧ n ∈ p.2.output_datasets))) := by
  have hseed : ∀ m ∈ st.transformers.flatMap (fun p => p.2.output_datasets),
      ∃ c, ((nodes st).map (fun n => (n, (0 : Nat)))).lookup m = some c :=
    fun m hm => ⟨0, lookup_map_zero _ _ (List.mem_dedup.mpr hm)⟩
  obtain ⟨ein', eout', heq, hkeys, hval⟩ := degrees_loop_spec st.transformers
    ((nodes st).map (fun n => (n, (0 : Nat)))) ((nodes st).map (fun n => (n, (0 : Nat))))
    none hflat hsrc1 hseed
  have hupd : update_degrees st = some (ein', eout') := heq
  unfold sources
  rw [hupd]
  have hkeysN : ein'.map Prod.fst = nodes st := by
    rw [hkeys, List.map_map]
    have hcomp : (Prod.fst ∘ fun n : String => (n, (0 : Nat))) = fun n => n := rfl
    rw [hcomp, List.map_id']
  have hchar : ∀ p ∈ ein', (p.2 < 1 ↔
      (∃ q ∈ st.transformers, q.2.input_datasets = [] ∧ p.1 ∈ q.2.output_datasets)) := by
    intro p hp
    obtain ⟨k, c⟩ := p
    have hkN : k ∈ nodes st := by
      rw [← hkeysN]
      exact List.mem_map.mpr ⟨(k, c), hp, rfl⟩
    have hnd' : (ein'.map Prod.fst).Nodup := by
      rw [hkeysN]
      exact List.nodup_dedup _
    have hlk : ein'.lookup k = some c := lookup_eq_of_mem hnd' hp
    have hv := hval k 0 (lookup_map_zero _ _ hkN)
    rw [hlk] at hv
    have hprod : ∃ q ∈ st.transformers, k ∈ q.2.output_datasets := by
      obtain ⟨q, hq, hm⟩ := List.mem_flatMap.mp (List.mem_dedup.mp hkN)
      exact ⟨q, hq, hm⟩
    by_cases hsrc : ∃ q ∈ st.transformers, q.2.input_datasets = [] ∧ k ∈ q.2.output_datasets
    · rw [if_pos hsrc] at hv
      have hc0 : c = 0 := Option.some.inj hv
      simp [hc0, hsrc]
    · rw [if_neg hsrc, if_pos hprod] at hv
      have hc1 : c = 0 + 1 := Option.some.inj hv
      simp [hc1, hsrc]
  show some ((ein'.filter (fun p => decide (p.2 < 1))).map Prod.fst) = _
  rw [filter_map_fst_char ein'
    (fun k => ∃ p ∈ st.transformers, p.2.input_datasets = [] ∧ k ∈ p.2.output_datasets)
    hchar, hkeysN]

/-- A catalog with one single-output source edge, refuting the original C9. -/
def c9bad : GState :=
  { transformers := [("_a", ⟨[], ["a"], []⟩)],
    datasets := [("a", ⟨"a", [], none⟩)],
    metaFiles := [], dsFiles := [] }

/-- A catalog with one two-output source edge. -/
def c9bad2 : GState :=
  { transformers := [("_ab", ⟨[], ["a", "b"], []⟩)],
    datasets := [("a", ⟨"a", [], none⟩), ("b", ⟨"b", [], none⟩)],
    metaFiles := [], dsFiles := [] }

/-- Counterexample to C9 as stated: `"a"` is listed among some transformer's
outputs (so it has a producing edge, and the "nodes with zero producing
edges" set is empty), yet `sources` returns `["a"]`; and on a two-output
source edge, of the two symmetric outputs `a`, `b` only the last (`"b"`) is
reported, because the `for/else` reset only touches the leaked loop
variable. -/
theorem c9_sources_counterexample :
    (sources c9bad = some ["a"])
  ∧ (∃ p ∈ c9bad.transformers, "a" ∈ p.2.output_datasets)
  ∧ (sources c9bad2 = some ["b"])
  ∧ (∃ p ∈ c9bad2.transformers, "a" ∈ p.2.output_datasets)
  ∧ (∃ p ∈ c9bad2.transformers, "b" ∈ p.2.output_datasets) := by
  refine ⟨by decide, by decide, by decide, by decide, by decide⟩

/-- The witness catalog for the amended C9: a source edge producing `a` and a
transformer consuming `a` producing `b`, `c`. -/
def c9ok : GState :=
  { transformers := [("_a", ⟨[], ["a"], []⟩), ("t1", ⟨["a"], ["b", "c"], []⟩)],
    datasets := [("a", ⟨"a", [], none⟩), ("b", ⟨"b", [], none⟩), ("c", ⟨"c", [], none⟩)],
    metaFiles := [], dsFiles := [] }

/-- Witness for the amended C9 at a concrete catalog. -/
theorem c9_sources_amended_witness :
    ((c9ok.transformers.flatMap (fun p => p.2.output_datasets)).Nodup)
  ∧ (∀ p ∈ c9ok.transformers, p.2.input_datasets = [] → p.2.output_datasets.length = 1)
  ∧ (sources c9ok = some ((nodes c9ok).filter (fun n =>
      decide (∃ p ∈ c9ok.transformers, p.2.input_datasets = [] ∧ n ∈ p.2.output_datasets))))
  ∧ (sources c9ok = some ["a"]) :=
  ⟨by decide, by decide, c9_sources_amended c9ok (by decide) (by decide), by decide⟩

/-- Witness for C1 at a concrete one-entry hash record. -/
theorem c1_traverse_chain_witness :
    (([("data", "sha1:h1")] : HashDict) = [("data", "sha1:h1")])
  ∧ ((([("data", "sha1:h1")] : HashDict).map Prod.fst).Nodup)
  ∧ (traverse (c1st [] [] [] [] [("data", "sha1:h1")] [("data", "sha1:h1")]
        none none [0] [1] [2]) true false "C" = .ok ["B", "C"] ["eB", "eC"])
  ∧ (traverse (c1st [] [] [] [] [("data", "sha1:h1")] [("data", "sha1:h1")]
        none none [0] [1] [2]) true true "C" = .ok ["A", "B", "C"] ["eA", "eB", "eC"]) :=
  ⟨rfl, by decide,
   (c1_traverse_chain [] [] [] [] [("data", "sha1:h1")] [("data", "sha1:h1")]
     none none [0] [1] [2] rfl (by decide)).1,
   (c1_traverse_chain [] [] [] [] [("data", "sha1:h1")] [("data", "sha1:h1")]
     none none [0] [1] [2] rfl (by decide)).2⟩

/-! ### Hash round-trip (C8) -/

theorem gdh_keys_nodup (h : Nat → String) (ds : Dataset)
    (hnd : (ds.fields.map Prod.fst).Nodup) :
    ((generate_data_hashes h ds).map Prod.fst).Nodup := by
  unfold generate_data_hashes
  rw [List.map_map]
  have hcomp : (Prod.fst ∘ fun kv : String × Nat => (kv.1, h kv.2)) = Prod.fst := rfl
  rw [hcomp]
  exact List.Nodup.sublist (List.Sublist.map _ (List.filter_sublist _)) hnd

/-- Claim C8: immediately after `update_hashes()` (default arguments),
`verify_hashes` applied to the dataset's own hash record returns `True`;
`verify_hashes({})` returns `True`; and `verify_hashes` returns `False`
whenever the supplied dict maps a key present in the hash record to a
different value (an order-independent subset test). -/
theorem c8_hash_roundtrip (h : Nat → String) (ds : Dataset)
    (hnd : (ds.fields.map Prod.fst).Nodup) :
    (∀ r, (update_hashes h ds).metadata.hashes = some r →
        verify_hashes (update_hashes h ds) r = some true)
  ∧ verify_hashes (update_hashes h ds) [] = some true
  ∧ (∀ (hd : HashDict) (k w v : String), (k, w) ∈ hd →
      (generate_data_hashes h ds).lookup k = some v → w ≠ v →
      verify_hashes (update_hashes h ds) hd = some false) := by
  refine ⟨?_, ?_, ?_⟩
  · intro r hr
    have hr' : generate_data_hashes h ds = r := Option.some.inj hr
    show some (dictLe r (generate_data_hashes h ds)) = some true
    rw [← hr', dictLe_self (gdh_keys_nodup h ds hnd)]
  · show some (dictLe [] (generate_data_hashes h ds)) = some true
    rfl
  · intro hd k w v hmem hlk hne
    show some (dictLe hd (generate_data_hashes h ds)) = some false
    have hfalse : dictLe hd (generate_data_hashes h ds) = false := by
      unfold dictLe
      rw [List.all_eq_false]
      refine ⟨(k, w), hmem, ?_⟩
      rw [hlk]
      simp only [beq_iff_eq, Option.some.injEq]
      exact fun hc => hne hc.symm
    rw [hfalse]

/-- Concrete hasher for the C8 witness. -/
def c8h : Nat → String := fun v => String.append "sha1:" (toString v)

/-- Concrete dataset for the C8 witness. -/
def c8ds : Dataset := ⟨[("data", 5), ("target", 7)], ⟨"t", [], none⟩⟩

/-- Witness for C8. -/
theorem c8_hash_roundtrip_witness :
    ((c8ds.fields.map Prod.fst).Nodup)
  ∧ (verify_hashes (update_hashes c8h c8ds) (generate_data_hashes c8h c8ds) = some true)
  ∧ (verify_hashes (update_hashes c8h c8ds) [] = some true)
  ∧ (verify_hashes (update_hashes c8h c8ds) [("data", "bogus")] = some false) :=
  ⟨by decide, (c8_hash_roundtrip c8h c8ds (by decide)).1 _ rfl,
   (c8_hash_roundtrip c8h c8ds (by decide)).2.1,
   (c8_hash_roundtrip c8h c8ds (by decide)).2.2 [("data", "bogus")] "data" "bogus" (c8h 5)
     (by decide) (by decide) (by decide)⟩

/-! ### Edge satisfiability (C2) -/

/-- Per-input freshness as the amended claim words it: the input has on-disk
metadata whose hash record is a subset (item-wise) of the record the datasets
catalog stores for it — vacuously fresh when the catalog records no hashes. -/
def input_fresh (st : GState) (n : String) : Bool :=
  match st.metaFiles.lookup n with
  | none => false
  | some md =>
    match md.hashes, st.datasets.lookup n with
    | some dh, some entry =>
      (match entry.hashes with
       | none => true
       | some ch => if ch.isEmpty then true else dictLe dh ch)
    | _, _ => false

/-- `FullySatisfied` as the original claim (and the spec sentence) words it:
every input is cached on disk with a hash record that is a SUPERSET of what
the catalog records for it.  This definition follows the claim's words and is
compared against the source-derived `fully_satisfied`. -/
def fully_satisfied_spec (st : GState) (edge : String) : Option Bool :=
  match st.transformers.lookup edge with
  | none => none
  | some he =>
    if he.input_datasets.isEmpty then some true
    else some (he.input_datasets.all (fun n =>
      match st.metaFiles.lookup n with
      | none => false
      | some md =>
        match md.hashes, st.datasets.lookup n with
        | some dh, some entry =>
          (match entry.hashes with
           | none => true
           | some ch => if ch.isEmpty then true else dictLe ch dh)
        | _, _ => false))

theorem check_inputs_cons (st : GState) (n : String) (rest : List String) :
    check_inputs st (n :: rest) =
      (match st.metaFiles.lookup n with
       | none =>
         match st.dsFiles.lookup n with
         | none => some false
         | some _ => none
       | some md =>
         if (st.datasets.lookup n).isSome then
           match md.hashes with
           | none => none
           | some dh =>
             match check_dataset_hashes st n dh with
             | none => none
             | some b => if b then check_inputs st rest else some false
         else none) := rfl

theorem check_inputs_spec (st : GState) :
    ∀ (l : List String),
    (∀ n ∈ l, ∀ md, st.metaFiles.lookup n = some md →
      (st.datasets.lookup n).isSome ∧ md.hashes.isSome) →
    (∀ n ∈ l, st.metaFiles.lookup n = none → st.dsFiles.lookup n = none) →
    check_inputs st l = some (l.all (fun n => input_fresh st n)) := by
  intro l
  induction l with
  | nil => intro _ _; rfl
  | cons n rest ih =>
    intro hok hnf
    have hok_rest : ∀ m ∈ rest, ∀ md, st.metaFiles.lookup m = some md →
        (st.datasets.lookup m).isSome ∧ md.hashes.isSome :=
      fun m hm => hok m (List.mem_cons_of_mem _ hm)
    have hnf_rest : ∀ m ∈ rest, st.metaFiles.lookup m = none →
        st.dsFiles.lookup m = none :=
      fun m hm => hnf m (List.mem_cons_of_mem _ hm)
    rw [check_inputs_cons]
    simp only [List.all_cons]
    cases hmf : st.metaFiles.lookup n with
    | none =>
      have hdf : st.dsFiles.lookup n = none := hnf n (List.mem_cons_self _ _) hmf
      have hif : input_fresh st n = false := by
        unfold input_fresh
        rw [hmf]
      rw [hif, hdf]
      simp
    | some md =>
      obtain ⟨hds, hh⟩ := hok n (List.mem_cons_self _ _) md hmf
      cases hdl : st.datasets.lookup n with
      | none => rw [hdl] at hds; cases hds
      | some entry =>
        cases hmh : md.hashes with
        | none => rw [hmh] at hh; cases hh
        | some dh =>
          show (if (some entry : Option Metadata).isSome = true then
              match md.hashes with
              | none => none
              | some dh' =>
                match check_dataset_hashes st n dh' with
                | none => none
                | some b => if b then check_inputs st rest else some false
            else none) = some (input_fresh st n && rest.all (fun m => input_fresh st m))
          rw [if_pos (show (some entry : Option Metadata).isSome = true from rfl), hmh]
          show (match check_dataset_hashes st n dh with
                | none => none
                | some b => if b then check_inputs st rest else some false)
              = some (input_fresh st n && rest.all (fun m => input_fresh st m))
          have hif0 : input_fresh st n
              = (match entry.hashes with
                 | none => true
                 | some ch => if ch.isEmpty then true else dictLe dh ch) := by
            unfold input_fresh
            rw [hmf]
            show (match md.hashes, st.datasets.lookup n with
                  | some dh', some entry' =>
                    (match entry'.hashes with
                     | none => true
                     | some ch => if ch.isEmpty then true else dictLe dh' ch)
                  | _, _ => false)
                = (match entry.hashes with
                   | none => true
                   | some ch => if ch.isEmpty then true else dictLe dh ch)
            rw [hmh, hdl]
          have hcdh0 : check_dataset_hashes st n dh
              = some (match entry.hashes with
                      | none => true
                      | some ch => if ch.isEmpty then true else dictLe dh ch) := by
            unfold check_dataset_hashes
            rw [hdl]
            show (match entry.hashes with
                  | none => some true
                  | some ch => if ch.isEmpty then some true else some (dictLe dh ch))
                = some (match entry.hashes with
                        | none => true
                        | some ch => if ch.isEmpty then true else dictLe dh ch)
            cases hch : entry.hashes with
            | none => rfl
            | some ch =>
              show (if ch.isEmpty = true then some true else some (dictLe dh ch))
                  = some (if ch.isEmpty = true then true else dictLe dh ch)
              by_cases hce : ch.isEmpty = true
              · rw [if_pos hce, if_pos hce]
              · rw [if_neg hce, if_neg hce]
          cases hch : entry.hashes with
          | none =>
            rw [hch] at hif0 hcdh0
            have hif1 : input_fresh st n = true := hif0
            have hcdh1 : check_dataset_hashes st n dh = some true := hcdh0
            rw [hcdh1]
            simp [ih hok_rest hnf_rest, hif1]
          | some ch =>
            rw [hch] at hif0 hcdh0
            have hif1 : input_fresh st n = (if ch.isEmpty then true else dictLe dh ch) := hif0
            have hcdh1 : check_dataset_hashes st n dh
                = some (if ch.isEmpty then true else dictLe dh ch) := hcdh0
            by_cases hce : ch.isEmpty = true
            · rw [if_pos hce] at hif1 hcdh1
              rw [hcdh1]
              simp [ih hok_rest hnf_rest, hif1]
            · rw [if_neg hce] at hif1 hcdh1
              cases hdle : dictLe dh ch with
              | true =>
                rw [hdle] at hif1 hcdh1
                rw [hcdh1]
                simp [ih hok_rest hnf_rest, hif1]
              | false =>
                rw [hdle] at hif1 hcdh1
                rw [hcdh1]
                simp [hif1]

/-- Claim C2 (amended): `fully_satisfied(edge)` returns `True` for a source
edge (empty or missing `input_datasets`); otherwise — provided no input
triggers a raise path (each cached input has a datasets-catalog entry and an
on-disk `hashes` record: no `NotFoundError`/`KeyError`; and no input has its
`.dataset` file on disk while its `.metadata` file is missing, the
half-present state where `open(metadata_fq)` raises `FileNotFoundError`) —
it returns `True` iff every input has on-disk metadata whose hash record is
a SUBSET of the record in the datasets catalog (vacuously satisfied when the
catalog records no hashes).  The original direction (superset) is refuted by
the counterexample. -/
theorem c2_fully_satisfied (st : GState) (edge : String) (he : Edge)
    (hlk : st.transformers.lookup edge = some he)
    (hok : ∀ n ∈ he.input_datasets, ∀ md, st.metaFiles.lookup n = some md →
        (st.datasets.lookup n).isSome ∧ md.hashes.isSome)
    (hnf : ∀ n ∈ he.input_datasets, st.metaFiles.lookup n = none →
        st.dsFiles.lookup n = none) :
    fully_satisfied st edge
      = some (he.input_datasets.isEmpty || he.input_datasets.all (fun n => input_fresh st n)) := by
  unfold fully_satisfied
  rw [hlk]
  show (if he.input_datasets.isEmpty = true then some true else check_inputs st he.input_datasets)
      = some (he.input_datasets.isEmpty || he.input_datasets.all (fun n => input_fresh st n))
  by_cases h1 : he.input_datasets = []
  · rw [h1]
    rfl
  · have hie : he.input_datasets.isEmpty = false := by
      cases hl : he.input_datasets with
      | nil => exact absurd hl h1
      | cons a as => rfl
    rw [hie, if_neg (by simp), Bool.false_or]
    exact check_inputs_spec st he.input_datasets hok hnf

/-- The state refuting the original C2: the catalog records hash `h1` for
input `a`; on disk `a` carries `{data: h1, target: h2}` — a strict superset
of the catalog record. -/
def c2bad : GState :=
  { transformers := [("e", ⟨["a"], ["b"], []⟩)],
    datasets := [("a", ⟨"a", [], some [("data", "h1")]⟩), ("b", ⟨"b", [], none⟩)],
    metaFiles := [("a", ⟨"a", [], some [("data", "h1"), ("target", "h2")]⟩)],
    dsFiles := [] }

/-- Counterexample to C2 as stated: the input's on-disk hash record is a
proper superset of the catalog record, so the claim (and
`fully_satisfied_spec`, its word-for-word transcription) says the edge is
fully satisfied — but the code checks the opposite containment
(`check_dataset_hashes` requires on-disk ⊆ catalog) and reports `False`. -/
theorem c2_fully_satisfied_counterexample :
    fully_satisfied_spec c2bad "e" = some true
  ∧ fully_satisfied c2bad "e" = some false :=
  ⟨by decide, by decide⟩

/-- Witness for the amended C2 at the same concrete state. -/
theorem c2_fully_satisfied_witness :
    (c2bad.transformers.lookup "e" = some ⟨["a"], ["b"], []⟩)
  ∧ (∀ n ∈ (Edge.mk ["a"] ["b"] []).input_datasets, ∀ md,
      c2bad.metaFiles.lookup n = some md →
      (c2bad.datasets.lookup n).isSome ∧ md.hashes.isSome)
  ∧ (∀ n ∈ (Edge.mk ["a"] ["b"] []).input_datasets,
      c2bad.metaFiles.lookup n = none → c2bad.dsFiles.lookup n = none)
  ∧ (fully_satisfied c2bad "e"
      = some ((Edge.mk ["a"] ["b"] []).input_datasets.isEmpty
          || (Edge.mk ["a"] ["b"] []).input_datasets.all (fun n => input_fresh c2bad n))) :=
  ⟨by decide, by decide, by decide,
   c2_fully_satisfied c2bad "e" ⟨["a"], ["b"], []⟩ (by decide) (by decide) (by decide)⟩

/-! ## Dataset.dump, process_edge, generate -/

/-- The two `ObjectCollision` raise sites of `Dataset.dump` (the source
distinguishes them only by message). -/
inductive DumpErr
  | collisionMatching
  | collisionDrift
  deriving DecidableEq, Repr

/-- The write phase of `Dataset.dump` (no collision): write the
`{name}.metadata` file (the `metadata` local captured BEFORE
`self.update_hashes()` rebinds `self['metadata']`, i.e. the pre-update dict),
optionally `update_catalog`, then write the `{name}.dataset` file with the
updated object. -/
def dump_write (h : Nat → String) (st : GState) (ds : Dataset) (update_catalog : Bool) :
    GState :=
  let metadata := ds.metadata
  let ds' := update_hashes h ds
  let st1 := { st with metaFiles := setEntry st.metaFiles ds.name metadata }
  let st2 := if update_catalog
    then { st1 with datasets := setEntry st1.datasets ds'.name ds'.metadata }
    else st1
  { st2 with dsFiles := setEntry st2.dsFiles ds.name ds' }

/-- `Dataset.dump(...)` with the default `file_base` (the dataset name),
`dump_metadata=True` and `create_dirs=True`: when a metadata record already
exists and `exists_ok` is not set, raise `ObjectCollision` — with the
"matching metadata exists already" message when the (pre-update) metadata is
an item-subset of the cached record, and the "metadata has changed" message
otherwise; in both cases nothing is written. -/
def dump (h : Nat → String) (st : GState) (ds : Dataset)
    (exists_ok update_catalog : Bool) : Except DumpErr GState :=
  match st.metaFiles.lookup ds.name, exists_ok with
  | some cached, false =>
    if metaLe ds.metadata cached then .error .collisionMatching
    else .error .collisionDrift
  | _, _ => .ok (dump_write h st ds update_catalog)

/-- A transformer's evolving dataset dictionary (`dsdict`), in insertion
order; `none` entries model outputs the transformer failed to produce. -/
abbrev DsDict := List (String × Option Dataset)

/-- `Dataset.from_disk(name, check_hashes=True)` as used by `process_edge` to
load an input: the name must be in the datasets catalog (`KeyError`), both
files must be on disk (`FileNotFoundError`; a half-present artifact also
raises, at `open`), the catalog hash record (default `{}`) must be item-wise
contained in the on-disk metadata's hash record and in the loaded object's
hash record (`ValidationError`), the on-disk `hashes` entries must exist
(`KeyError`/`AttributeError`).  All raises are `none`. -/
def from_disk_checked (st : GState) (name : String) : Option Dataset :=
  match st.datasets.lookup name with
  | none => none
  | some cat =>
    match st.metaFiles.lookup name, st.dsFiles.lookup name with
    | some meta, some ds =>
      (match meta.hashes with
       | none => none
       | some mh =>
         if dictLe (cat.hashes.getD []) mh then
           (match ds.metadata.hashes with
            | none => none
            | some dsh =>
              if dictLe (cat.hashes.getD []) dsh then some ds else none)
         else none)
    | _, _ => none

/-- The input-loading loop of `process_edge`: each input must be in the
datasets catalog (`NotFoundError`) and loads from disk with hash checking. -/
def load_inputs (st : GState) : List String → Option DsDict
  | [] => some []
  | n :: rest =>
    match st.datasets.lookup n with
    | none => none
    | some _ =>
      match from_disk_checked st n with
      | none => none
      | some ds => (load_inputs st rest).map (fun d => (n, some ds) :: d)

/-- The per-output check that makes `process_edge` (in
`overwrite_catalog=False` mode) mark the edge failed: the output is `None`,
or it has a catalog entry whose hash record is not item-wise contained in the
freshly generated record. -/
def out_fails (h : Nat → String) (cat : List (String × Metadata))
    (p : String × Option Dataset) : Bool :=
  match p.2 with
  | none => true
  | some ds0 =>
    match cat.lookup p.1 with
    | none => false
    | some entry =>
      !(dictLe (entry.hashes.getD []) ((update_hashes h ds0).metadata.hashes.getD []))

/-- The state/success effect of processing one non-`None` output:
`update_hashes` it, in `overwrite_catalog` mode replace its catalog entry,
clear `success` on a (non-`overwrite_catalog`) catalog-hash mismatch or keep
it, and `dump` (with `exists_ok=True`) unless the check failed (`continue`),
`write_dataset` is off, or the output is already cached and not being
overwritten. -/
def output_step (h : Nat → String) (wd oc : Bool) (onDisk : List String)
    (nm : String) (ds0 : Dataset) (st : GState) (succ : Bool) : GState × Bool :=
  let ds := update_hashes h ds0
  let stc := if oc then { st with datasets := setEntry st.datasets nm ds.metadata } else st
  let failed := !oc && out_fails h st.datasets (nm, some ds0)
  let succ1 := if failed then false else succ
  let stw := if !failed && (wd && (oc || !(onDisk.contains nm)))
    then (match dump h stc ds true oc with
          | .ok st2 => st2
          | .error _ => stc)
    else stc
  (stw, succ1)

/-- The per-output loop inside each transformation of `process_edge`:
`update_hashes` each produced dataset in place, in `overwrite_catalog` mode
replace its catalog entry unconditionally, otherwise verify the generated
hashes against the catalog (a failing or `None` output clears `success` and
`continue`s past the write), and write (`dump` with `exists_ok=True`,
`update_catalog=overwrite_catalog`) when `write_dataset` is set and the
output is being overwritten or is not yet cached on disk (`on_disk_datasets`
is the snapshot taken before the loop). -/
def outputs_loop (h : Nat → String) (wd oc : Bool) (onDisk : List String) :
    DsDict → GState → Bool → (DsDict × GState × Bool)
  | [], st, succ => ([], st, succ)
  | (nm, dso) :: rest, st, succ =>
    match dso with
    | none =>
      let r := outputs_loop h wd oc onDisk rest st false
      ((nm, none) :: r.1, r.2.1, r.2.2)
    | some ds0 =>
      let r := outputs_loop h wd oc onDisk rest
        (output_step h wd oc onDisk nm ds0 st succ).1
        (output_step h wd oc onDisk nm ds0 st succ).2
      ((nm, some (update_hashes h ds0)) :: r.1, r.2.1, r.2.2)

/-- The transformation loop of `process_edge`: apply each deserialized step
to the evolving `dsdict`, snapshot `processed_datasets()` (the stems of the
on-disk `*.metadata` files), run the per-output loop, reload the datasets
catalog (the identity here: the in-memory catalog always equals its disk
serialization, see C5), and return `None` for the whole edge when `success`
was cleared.  The returned `Nat` counts executed transformer steps. -/
def xform_loop (h : Nat → String) (app : Nat → DsDict → DsDict) (wd oc : Bool) :
    List Nat → DsDict → GState → Nat → Option (Option DsDict × GState × Nat)
  | [], dsdict, st, n => some (some dsdict, st, n)
  | xf :: rest, dsdict, st, n =>
    let d1 := app xf dsdict
    let onDisk := st.metaFiles.map Prod.fst
    let r := outputs_loop h wd oc onDisk d1 st true
    if r.2.2 then xform_loop h app wd oc rest r.1 r.2.1 (n + 1)
    else some (none, r.2.1, n + 1)

/-- `DatasetGraph.process_edge(edge_name, write_dataset, overwrite_catalog)`:
`ValueError` when `overwrite_catalog` without `write_dataset`;
`EasydataError` when the edge is not fully satisfied; load every input from
disk with hash re-validation; then run the transformation loop.  Returns the
final `dsdict` (`none` inside `some` models the `return None` failure path)
with the resulting state and the number of executed transformer steps; the
outer `none` models a raise. -/
def process_edge (h : Nat → String) (app : Nat → DsDict → DsDict) (st : GState)
    (edge_name : String) (write_dataset overwrite_catalog : Bool) :
    Option (Option DsDict × GState × Nat) :=
  if overwrite_catalog && !write_dataset then none
  else match fully_satisfied st edge_name with
    | none => none
    | some false => none
    | some true =>
      match st.transformers.lookup edge_name with
      | none => none
      | some edge =>
        match load_inputs st edge.input_datasets with
        | none => none
        | some inputs =>
          xform_loop h app write_dataset overwrite_catalog edge.transformations inputs st 0

/-- The edge loop of `DatasetGraph.generate`: process every traversed edge in
order, aborting (returning `None`) at the first failing edge, and return the
final edge's `dsdict`.  An empty edge list would leave the Python `dsdict`
variable unbound (`NameError`, modelled `none`); `traverse` never returns an
empty edge list for a found node. -/
def generate_loop (h : Nat → String) (app : Nat → DsDict → DsDict) (wd oc : Bool) :
    List String → GState → Nat → Option (Option DsDict × GState × Nat)
  | [], _, _ => none
  | e :: rest, st, n =>
    match process_edge h app st e wd oc with
    | none => none
    | some (none, st', k) => some (none, st', n + k)
    | some (some d, st', k) =>
      match rest with
      | [] => some (some d, st', n + k)
      | _ :: _ => generate_loop h app wd oc rest st' (n + k)

/-- `DatasetGraph.generate(dataset_name, write_datasets, overwrite_catalog,
exhaustive)`: traverse backward from the target (breadth-first), then process
every edge of the traversal in order. -/
def generate (h : Nat → String) (app : Nat → DsDict → DsDict) (st : GState)
    (dataset_name : String) (write_datasets overwrite_catalog exhaustive : Bool) :
    Option (Option DsDict × GState × Nat) :=
  match traverse st true exhaustive dataset_name with
  | .ok _ edge_list => generate_loop h app write_datasets overwrite_catalog edge_list st 0
  | _ => none

/-- Claim C6 (amended): without `exists_ok`, `dump` refuses to overwrite an
existing metadata record — but identical resubmission is NOT a no-op: both
cases raise `ObjectCollision`, distinguished only by message (matching
metadata vs changed metadata); no `.ok` result is possible, and silent
clobbering indeed requires the explicit flag (`exists_ok=True` always
writes). -/
theorem c6_dump_refuses (h : Nat → String) (st : GState) (ds : Dataset)
    (cached : Metadata) (uc : Bool)
    (hcache : st.metaFiles.lookup ds.name = some cached) :
    (metaLe ds.metadata cached = true → dump h st ds false uc = .error .collisionMatching)
  ∧ (metaLe ds.metadata cached = false → dump h st ds false uc = .error .collisionDrift)
  ∧ (∀ st', dump h st ds false uc ≠ .ok st')
  ∧ (dump h st ds true uc = .ok (dump_write h st ds uc)) := by
  refine ⟨?_, ?_, ?_, ?_⟩
  · intro hle
    unfold dump
    rw [hcache]
    show (if metaLe ds.metadata cached = true then Except.error DumpErr.collisionMatching
          else Except.error DumpErr.collisionDrift)
        = Except.error DumpErr.collisionMatching
    rw [if_pos hle]
  · intro hle
    unfold dump
    rw [hcache]
    show (if metaLe ds.metadata cached = true then Except.error DumpErr.collisionMatching
          else Except.error DumpErr.collisionDrift)
        = Except.error DumpErr.collisionDrift
    rw [if_neg (by simp [hle])]
  · intro st' hok
    unfold dump at hok
    rw [hcache] at hok
    have hok' : (if metaLe ds.metadata cached = true
          then Except.error DumpErr.collisionMatching
          else Except.error DumpErr.collisionDrift) = Except.ok st' := hok
    by_cases hmle : metaLe ds.metadata cached = true
    · rw [if_pos hmle] at hok'
      cases hok'
    · rw [if_neg hmle] at hok'
      cases hok'
  · unfold dump
    rw [hcache]

/-- The dataset whose metadata is byte-identical to the cached record. -/
def c6ds : Dataset := ⟨[("data", 3)], ⟨"X", [], some [("data", "h0")]⟩⟩

/-- A dataset with drifted metadata for the same file base. -/
def c6ds2 : Dataset := ⟨[("data", 3)], ⟨"X", [("extra", "1")], some [("data", "DIFF")]⟩⟩

/-- A state whose processed-data directory already holds `X.metadata` with
exactly `c6ds`'s metadata. -/
def c6st : GState :=
  { transformers := [], datasets := [],
    metaFiles := [("X", ⟨"X", [], some [("data", "h0")]⟩)], dsFiles := [] }

/-- Counterexample to C6 as stated: resubmitting byte-identical metadata is
not a no-op — `dump` raises `ObjectCollision` (the "matching metadata exists
already" message) just like the drift case. -/
theorem c6_dump_counterexample :
    (c6st.metaFiles.lookup c6ds.name = some c6ds.metadata)
  ∧ dump c8h c6st c6ds false true = .error .collisionMatching :=
  ⟨by decide, by decide⟩

/-- Witness for the amended C6: both collision branches and the forced
overwrite at concrete inputs. -/
theorem c6_dump_refuses_witness :
    (c6st.metaFiles.lookup c6ds.name = some (Metadata.mk "X" [] (some [("data", "h0")])))
  ∧ (metaLe c6ds.metadata (Metadata.mk "X" [] (some [("data", "h0")])) = true)
  ∧ (dump c8h c6st c6ds false true = .error .collisionMatching)
  ∧ (metaLe c6ds2.metadata (Metadata.mk "X" [] (some [("data", "h0")])) = false)
  ∧ (dump c8h c6st c6ds2 false true = .error .collisionDrift)
  ∧ (dump c8h c6st c6ds true true = .ok (dump_write c8h c6st c6ds true)) :=
  ⟨by decide, by decide,
   (c6_dump_refuses c8h c6st c6ds (Metadata.mk "X" [] (some [("data", "h0")])) true
     (by decide)).1 (by decide),
   by decide,
   (c6_dump_refuses c8h c6st c6ds2 (Metadata.mk "X" [] (some [("data", "h0")])) true
     (by decide)).2.1 (by decide),
   (c6_dump_refuses c8h c6st c6ds (Metadata.mk "X" [] (some [("data", "h0")])) true
     (by decide)).2.2.2⟩

/-! ### Regenerating a cached-fresh artifact (C3) -/

theorem traverse_loop_nil (st : GState) (bfs ex : Bool) (fuel : Nat)
    (visited edges : List String) :
    traverse_loop st bfs ex fuel [] visited edges = .ok visited.reverse edges.reverse := by
  cases fuel with
  | zero => rfl
  | succ f => rfl

theorem xform_loop_count (h : Nat → String) (app : Nat → DsDict → DsDict) (wd oc : Bool) :
    ∀ (ts : List Nat) (dsdict : DsDict) (st : GState) (n : Nat) (d : DsDict)
      (st' : GState) (k : Nat),
    xform_loop h app wd oc ts dsdict st n = some (some d, st', k) → k = n + ts.length := by
  intro ts
  induction ts with
  | nil =>
    intro dsdict st n d st' k hk
    have hk' : (some (some dsdict, st, n) : Option (Option DsDict × GState × Nat))
        = some (some d, st', k) := hk
    have h2 := congrArg (fun q => q.2.2) (Option.some.inj hk')
    simpa using h2.symm
  | cons xf rest ih =>
    intro dsdict st n d st' k hk
    have hk' : (if (outputs_loop h wd oc (st.metaFiles.map Prod.fst) (app xf dsdict) st true).2.2
          then xform_loop h app wd oc rest
            (outputs_loop h wd oc (st.metaFiles.map Prod.fst) (app xf dsdict) st true).1
            (outputs_loop h wd oc (st.metaFiles.map Prod.fst) (app xf dsdict) st true).2.1
            (n + 1)
          else some (none,
            (outputs_loop h wd oc (st.metaFiles.map Prod.fst) (app xf dsdict) st true).2.1,
            n + 1)) = some (some d, st', k) := hk
    by_cases hs : (outputs_loop h wd oc (st.metaFiles.map Prod.fst) (app xf dsdict) st true).2.2
      = true
    · rw [if_pos hs] at hk'
      have := ih _ _ _ _ _ _ hk'
      rw [this, List.length_cons]
      omega
    · rw [if_neg hs] at hk'
      have h2 := congrArg (fun q => q.1) (Option.some.inj hk')
      simp at h2

/-- Claim C3 (amended): for a dataset `X` that is cached fresh — its producing
edge `e` is fully satisfied — non-exhaustive `traverse("X")` still returns
`([X], [e])` (the producing edge is always part of the traversal), and
`generate(X)` (non-exhaustive, `write_datasets=True`,
`overwrite_catalog=False`) therefore processes exactly that one edge,
re-executing every one of its transformer steps (the executed step count on
success equals the edge's transformation count) — not zero steps. -/
theorem c3_generate_cached (h : Nat → String) (app : Nat → DsDict → DsDict)
    (st : GState) (X : String) (parents : List String) (e : String) (sibs : List String)
    (hfc : find_child st X = some (parents, e, sibs))
    (hfs : fully_satisfied st e = some true) :
    traverse st true false X = .ok [X] [e]
  ∧ generate h app st X true false false = process_edge h app st e true false
  ∧ (∀ edge d st' k, st.transformers.lookup e = some edge →
      process_edge h app st e true false = some (some d, st', k) →
      k = edge.transformations.length) := by
  have htrav : traverse st true false X = .ok [X] [e] := by
    unfold traverse
    rw [traverse_loop_step (by simp [pop_vertex]) (by simpa [pop_vertex] using hfc) hfs]
    simp only [pop_vertex, pop_rest, Bool.not_true, Bool.or_self, Bool.false_or,
      if_true, if_false, List.nil_append]
    rw [if_neg (by simp)]
    rw [traverse_loop_nil]
    simp
  have hloop : generate_loop h app true false [e] st 0 = process_edge h app st e true false := by
    show (match process_edge h app st e true false with
          | none => none
          | some (none, st', k) => some (none, st', 0 + k)
          | some (some d, st', k) =>
            match ([] : List String) with
            | [] => some (some d, st', 0 + k)
            | _ :: _ => generate_loop h app true false [] st' (0 + k))
        = process_edge h app st e true false
    cases hpe : process_edge h app st e true false with
    | none => rfl
    | some r =>
      obtain ⟨od, st', k⟩ := r
      cases od with
      | none =>
        show some (none, st', 0 + k) = some (none, st', k)
        rw [Nat.zero_add]
      | some d =>
        show some (some d, st', 0 + k) = some (some d, st', k)
        rw [Nat.zero_add]
  have hgen : generate h app st X true false false = process_edge h app st e true false := by
    unfold generate
    rw [htrav]
    exact hloop
  refine ⟨htrav, hgen, ?_⟩
  intro edge d st' k hlk hpe
  have hpe1 : (match fully_satisfied st e with
      | none => none
      | some false => none
      | some true =>
        match st.transformers.lookup e with
        | none => none
        | some edge =>
          match load_inputs st edge.input_datasets with
          | none => none
          | some inputs => xform_loop h app true false edge.transformations inputs st 0)
      = some (some d, st', k) := hpe
  rw [hfs] at hpe1
  have hpe2 : (match st.transformers.lookup e with
      | none => none
      | some edge =>
        match load_inputs st edge.input_datasets with
        | none => none
        | some inputs => xform_loop h app true false edge.transformations inputs st 0)
      = some (some d, st', k) := hpe1
  rw [hlk] at hpe2
  have hpe3 : (match load_inputs st edge.input_datasets with
      | none => none
      | some inputs => xform_loop h app true false edge.transformations inputs st 0)
      = some (some d, st', k) := hpe2
  cases hli : load_inputs st edge.input_datasets with
  | none => rw [hli] at hpe3; cases hpe3
  | some inputs =>
    rw [hli] at hpe3
    have := xform_loop_count h app true false edge.transformations inputs st 0 d st' k hpe3
    simpa using this

/-- The cached copy of `W` (the input of `X`'s producing edge). -/
def c3dsW : Dataset := ⟨[("data", 1)], ⟨"W", [], some [("data", c8h 1)]⟩⟩

/-- The cached copy of `X`, hash-matching the catalog but carrying an extra
metadata field. -/
def c3dsXcached : Dataset := ⟨[("data", 5)], ⟨"X", [("note", "old")], some [("data", c8h 5)]⟩⟩

/-- The freshly transformed `X` (hashes added by `update_hashes`). -/
def c3dsXgen : Dataset := ⟨[("data", 5)], ⟨"X", [], none⟩⟩

/-- The concrete transformer-step semantics for C3: step 3 produces `X`. -/
def c3app : Nat → DsDict → DsDict := fun xf d => if xf == 3 then [("X", some c3dsXgen)] else d

/-- The C3 state: `W` and `X` both cached fresh, `X` produced from `W` by the
single-step edge `eX`. -/
def c3st : GState :=
  { transformers := [("eW", ⟨[], ["W"], [7]⟩), ("eX", ⟨["W"], ["X"], [3]⟩)],
    datasets := [("W", ⟨"W", [], some [("data", c8h 1)]⟩),
                 ("X", ⟨"X", [], some [("data", c8h 5)]⟩)],
    metaFiles := [("W", c3dsW.metadata), ("X", c3dsXcached.metadata)],
    dsFiles := [("W", c3dsW), ("X", c3dsXcached)] }

/-- Counterexample to C3 as stated: `X` is cached fresh (on disk, producing
edge fully satisfied), yet non-exhaustive `generate("X")` executes one
transformer step (not zero) — it reloads the input and re-runs `eX`'s
pipeline — and the returned metadata is the freshly recomputed one, which
differs from the cached artifact's metadata. -/
theorem c3_generate_counterexample :
    ((c3st.metaFiles.lookup "X").isSome = true)
  ∧ (fully_satisfied c3st "eX" = some true)
  ∧ (find_child c3st "X" = some (["W"], "eX", ["X"]))
  ∧ (generate c8h c3app c3st "X" true false false
      = some (some [("X", some (update_hashes c8h c3dsXgen))], c3st, 1))
  ∧ (some (update_hashes c8h c3dsXgen).metadata ≠ c3st.metaFiles.lookup "X") := by
  refine ⟨by decide, by decide, by decide, by decide, by decide⟩

/-- Witness for the amended C3 at the concrete cached-fresh state. -/
theorem c3_generate_cached_witness :
    (find_child c3st "X" = some (["W"], "eX", ["X"]))
  ∧ (fully_satisfied c3st "eX" = some true)
  ∧ (traverse c3st true false "X" = .ok ["X"] ["eX"])
  ∧ (generate c8h c3app c3st "X" true false false = process_edge c8h c3app c3st "eX" true false)
  ∧ (1 = (Edge.mk ["W"] ["X"] [3]).transformations.length) :=
  ⟨by decide, by decide,
   (c3_generate_cached c8h c3app c3st "X" ["W"] "eX" ["X"] (by decide) (by decide)).1,
   (c3_generate_cached c8h c3app c3st "X" ["W"] "eX" ["X"] (by decide) (by decide)).2.1,
   (c3_generate_cached c8h c3app c3st "X" ["W"] "eX" ["X"] (by decide) (by decide)).2.2
     ⟨["W"], ["X"], [3]⟩ [("X", some (update_hashes c8h c3dsXgen))] c3st 1
     (by decide) (by decide)⟩


theorem update_hashes_name (h : Nat → String) (ds : Dataset) :
    Dataset.name (update_hashes h ds) = Dataset.name ds := rfl

theorem update_hashes_idem (h : Nat → String) (ds : Dataset) :
    update_hashes h (update_hashes h ds) = update_hashes h ds := rfl

theorem dump_exists_ok (h : Nat → String) (st : GState) (ds : Dataset) (uc : Bool) :
    dump h st ds true uc = .ok (dump_write h st ds uc) := by
  unfold dump
  cases st.metaFiles.lookup ds.name <;> rfl

theorem dump_write_datasets_false (h : Nat → String) (st : GState) (ds : Dataset) :
    (dump_write h st ds false).datasets = st.datasets := rfl

theorem dump_write_datasets_true (h : Nat → String) (st : GState) (ds : Dataset) :
    (dump_write h st ds true).datasets
      = setEntry st.datasets (Dataset.name ds) ((update_hashes h ds).metadata) := rfl

theorem dump_write_metaFiles (h : Nat → String) (st : GState) (ds : Dataset) (uc : Bool) :
    (dump_write h st ds uc).metaFiles
      = setEntry st.metaFiles (Dataset.name ds) ds.metadata := by
  cases uc <;> rfl

theorem dump_write_dsFiles (h : Nat → String) (st : GState) (ds : Dataset) (uc : Bool) :
    (dump_write h st ds uc).dsFiles
      = setEntry st.dsFiles (Dataset.name ds) (update_hashes h ds) := by
  cases uc <;> rfl

theorem output_step_fail_eq (h : Nat → String) (onDisk : List String)
    (nm : String) (ds0 : Dataset) (st : GState) (succ : Bool)
    (hF : out_fails h st.datasets (nm, some ds0) = true) :
    output_step h true false onDisk nm ds0 st succ = (st, false) := by
  unfold output_step
  simp [hF]

theorem output_step_pass_skip_eq (h : Nat → String) (onDisk : List String)
    (nm : String) (ds0 : Dataset) (st : GState) (succ : Bool)
    (hF : out_fails h st.datasets (nm, some ds0) = false)
    (hC : onDisk.contains nm = true) :
    output_step h true false onDisk nm ds0 st succ = (st, succ) := by
  have hC' : nm ∈ onDisk := by simpa using hC
  unfold output_step
  simp [hF, hC']

theorem output_step_pass_write_eq (h : Nat → String) (onDisk : List String)
    (nm : String) (ds0 : Dataset) (st : GState) (succ : Bool)
    (hF : out_fails h st.datasets (nm, some ds0) = false)
    (hC : onDisk.contains nm = false) :
    output_step h true false onDisk nm ds0 st succ
      = (dump_write h st (update_hashes h ds0) false, succ) := by
  have hC' : ¬ nm ∈ onDisk := by simpa using hC
  unfold output_step
  simp [hF, hC', dump_exists_ok]

theorem output_step_oc_eq (h : Nat → String) (onDisk : List String)
    (nm : String) (ds0 : Dataset) (st : GState) (succ : Bool) :
    output_step h true true onDisk nm ds0 st succ
      = (dump_write h
           { st with datasets := setEntry st.datasets nm ((update_hashes h ds0).metadata) }
           (update_hashes h ds0) true,
         succ) := by
  unfold output_step
  simp [dump_exists_ok]

theorem outputs_loop_cons_none (h : Nat → String) (wd oc : Bool) (onDisk : List String)
    (nm : String) (rest : DsDict) (st : GState) (succ : Bool) :
    outputs_loop h wd oc onDisk ((nm, none) :: rest) st succ
      = ((nm, none) :: (outputs_loop h wd oc onDisk rest st false).1,
         (outputs_loop h wd oc onDisk rest st false).2.1,
         (outputs_loop h wd oc onDisk rest st false).2.2) := rfl

theorem outputs_loop_cons_some (h : Nat → String) (wd oc : Bool) (onDisk : List String)
    (nm : String) (ds0 : Dataset) (rest : DsDict) (st : GState) (succ : Bool) :
    outputs_loop h wd oc onDisk ((nm, some ds0) :: rest) st succ
      = ((nm, some (update_hashes h ds0)) ::
           (outputs_loop h wd oc onDisk rest
             (output_step h wd oc onDisk nm ds0 st succ).1
             (output_step h wd oc onDisk nm ds0 st succ).2).1,
         (outputs_loop h wd oc onDisk rest
           (output_step h wd oc onDisk nm ds0 st succ).1
           (output_step h wd oc onDisk nm ds0 st succ).2).2.1,
         (outputs_loop h wd oc onDisk rest
           (output_step h wd oc onDisk nm ds0 st succ).1
           (output_step h wd oc onDisk nm ds0 st succ).2).2.2) := rfl

theorem outputs_loop_shape (h : Nat → String) (wd oc : Bool) (onDisk : List String) :
    ∀ (l : DsDict) (st : GState) (succ : Bool),
    (outputs_loop h wd oc onDisk l st succ).1
      = l.map (fun p => (p.1, p.2.map (update_hashes h))) := by
  intro l
  induction l with
  | nil => intro st succ; rfl
  | cons p rest ih =>
    intro st succ
    obtain ⟨nm, dso⟩ := p
    cases dso with
    | none =>
      rw [outputs_loop_cons_none]
      simp [ih]
    | some ds0 =>
      rw [outputs_loop_cons_some]
      simp [ih]

theorem output_step_false_datasets (h : Nat → String) (onDisk : List String)
    (nm : String) (ds0 : Dataset) (st : GState) (succ : Bool) :
    (output_step h true false onDisk nm ds0 st succ).1.datasets = st.datasets := by
  cases hF : out_fails h st.datasets (nm, some ds0) with
  | true => rw [output_step_fail_eq h onDisk nm ds0 st succ hF]
  | false =>
    cases hC : onDisk.contains nm with
    | true => rw [output_step_pass_skip_eq h onDisk nm ds0 st succ hF hC]
    | false =>
      rw [output_step_pass_write_eq h onDisk nm ds0 st succ hF hC]
      exact dump_write_datasets_false h st (update_hashes h ds0)

theorem output_step_false_snd (h : Nat → String) (onDisk : List String)
    (nm : String) (ds0 : Dataset) (st : GState) (succ : Bool) :
    (output_step h true false onDisk nm ds0 st succ).2
      = (!(out_fails h st.datasets (nm, some ds0)) && succ) := by
  cases hF : out_fails h st.datasets (nm, some ds0) with
  | true => rw [output_step_fail_eq h onDisk nm ds0 st succ hF]; rfl
  | false =>
    cases hC : onDisk.contains nm with
    | true => rw [output_step_pass_skip_eq h onDisk nm ds0 st succ hF hC]; rfl
    | false => rw [output_step_pass_write_eq h onDisk nm ds0 st succ hF hC]; rfl

theorem outputs_loop_false_datasets (h : Nat → String) (onDisk : List String) :
    ∀ (l : DsDict) (st : GState) (succ : Bool),
    (outputs_loop h true false onDisk l st succ).2.1.datasets = st.datasets := by
  intro l
  induction l with
  | nil => intro st succ; rfl
  | cons p rest ih =>
    intro st succ
    obtain ⟨nm, dso⟩ := p
    cases dso with
    | none => exact ih st false
    | some ds0 =>
      have h1 := ih (output_step h true false onDisk nm ds0 st succ).1
                    (output_step h true false onDisk nm ds0 st succ).2
      rw [output_step_false_datasets h onDisk nm ds0 st succ] at h1
      exact h1

theorem outputs_loop_false_succ (h : Nat → String) (onDisk : List String) :
    ∀ (l : DsDict) (st : GState) (succ : Bool),
    (outputs_loop h true false onDisk l st succ).2.2
      = (succ && !(l.any (out_fails h st.datasets))) := by
  intro l
  induction l with
  | nil => intro st succ; cases succ <;> rfl
  | cons p rest ih =>
    intro st succ
    obtain ⟨nm, dso⟩ := p
    cases dso with
    | none =>
      have h1 := ih st false
      have h2 : (outputs_loop h true false onDisk ((nm, none) :: rest) st succ).2.2
          = (outputs_loop h true false onDisk rest st false).2.2 := rfl
      have hout : out_fails h st.datasets (nm, none) = true := rfl
      rw [h2, h1]
      simp [List.any_cons, hout]
    | some ds0 =>
      have h1 := ih (output_step h true false onDisk nm ds0 st succ).1
                    (output_step h true false onDisk nm ds0 st succ).2
      rw [output_step_false_datasets h onDisk nm ds0 st succ] at h1
      have h2 : (outputs_loop h true false onDisk ((nm, some ds0) :: rest) st succ).2.2
          = (outputs_loop h true false onDisk rest
              (output_step h true false onDisk nm ds0 st succ).1
              (output_step h true false onDisk nm ds0 st succ).2).2.2 := rfl
      rw [h2, h1, output_step_false_snd h onDisk nm ds0 st succ]
      simp only [List.any_cons]
      cases hF : out_fails h st.datasets (nm, some ds0) <;> cases succ <;> simp

theorem output_step_false_frame (h : Nat → String) (onDisk : List String)
    (nm : String) (ds0 : Dataset) (st : GState) (succ : Bool) (k : String)
    (hname : Dataset.name ds0 = nm) (hk : ¬ k = nm) :
    (output_step h true false onDisk nm ds0 st succ).1.metaFiles.lookup k
        = st.metaFiles.lookup k
    ∧ (output_step h true false onDisk nm ds0 st succ).1.dsFiles.lookup k
        = st.dsFiles.lookup k := by
  cases hF : out_fails h st.datasets (nm, some ds0) with
  | true => rw [output_step_fail_eq h onDisk nm ds0 st succ hF]; exact ⟨rfl, rfl⟩
  | false =>
    cases hC : onDisk.contains nm with
    | true => rw [output_step_pass_skip_eq h onDisk nm ds0 st succ hF hC]; exact ⟨rfl, rfl⟩
    | false =>
      rw [output_step_pass_write_eq h onDisk nm ds0 st succ hF hC]
      constructor
      · show (dump_write h st (update_hashes h ds0) false).metaFiles.lookup k
            = st.metaFiles.lookup k
        rw [dump_write_metaFiles, update_hashes_name, hname]
        exact lookup_setEntry_ne st.metaFiles nm k (update_hashes h ds0).metadata hk
      · show (dump_write h st (update_hashes h ds0) false).dsFiles.lookup k
            = st.dsFiles.lookup k
        rw [dump_write_dsFiles, update_hashes_name, hname]
        exact lookup_setEntry_ne st.dsFiles nm k
          (update_hashes h (update_hashes h ds0)) hk

theorem outputs_loop_false_frame (h : Nat → String) (onDisk : List String) :
    ∀ (l : DsDict) (st : GState) (succ : Bool) (k : String),
    (∀ p ∈ l, ∀ ds1, (p : String × Option Dataset).2 = some ds1 → Dataset.name ds1 = p.1) →
    ¬ k ∈ l.map Prod.fst →
    (outputs_loop h true false onDisk l st succ).2.1.metaFiles.lookup k
        = st.metaFiles.lookup k
    ∧ (outputs_loop h true false onDisk l st succ).2.1.dsFiles.lookup k
        = st.dsFiles.lookup k := by
  intro l
  induction l with
  | nil => intro st succ k hnames hk; exact ⟨rfl, rfl⟩
  | cons p rest ih =>
    intro st succ k hnames hk
    obtain ⟨nm, dso⟩ := p
    have hknm : ¬ k = nm := by
      intro hke; apply hk; simp [hke]
    have hkrest : ¬ k ∈ rest.map Prod.fst := by
      intro hker; apply hk; simp [hker]
    have hnrest : ∀ p ∈ rest, ∀ ds1,
        (p : String × Option Dataset).2 = some ds1 → Dataset.name ds1 = p.1 := by
      intro q hq; exact hnames q (List.mem_cons_of_mem _ hq)
    cases dso with
    | none => exact ih st false k hnrest hkrest
    | some ds0 =>
      have hname : Dataset.name ds0 = nm :=
        hnames (nm, some ds0) (List.mem_cons_self _ _) ds0 rfl
      have h1 := ih (output_step h true false onDisk nm ds0 st succ).1
                    (output_step h true false onDisk nm ds0 st succ).2 k hnrest hkrest
      have h2 := output_step_false_frame h onDisk nm ds0 st succ k hname hknm
      exact ⟨h1.1.trans h2.1, h1.2.trans h2.2⟩

theorem outputs_loop_false_entry (h : Nat → String) (onDisk : List String) :
    ∀ (l : DsDict) (st : GState) (succ : Bool) (nm : String) (ds0 : Dataset),
    (∀ p ∈ l, ∀ ds1, (p : String × Option Dataset).2 = some ds1 → Dataset.name ds1 = p.1) →
    (l.map Prod.fst).Nodup →
    (nm, some ds0) ∈ l →
    ((out_fails h st.datasets (nm, some ds0) = true →
        (outputs_loop h true false onDisk l st succ).2.1.metaFiles.lookup nm
            = st.metaFiles.lookup nm
        ∧ (outputs_loop h true false onDisk l st succ).2.1.dsFiles.lookup nm
            = st.dsFiles.lookup nm)
     ∧ (out_fails h st.datasets (nm, some ds0) = false →
        onDisk.contains nm = false →
        (outputs_loop h true false onDisk l st succ).2.1.metaFiles.lookup nm
            = some ((update_hashes h ds0).metadata)
        ∧ (outputs_loop h true false onDisk l st succ).2.1.dsFiles.lookup nm
            = some (update_hashes h ds0))) := by
  intro l
  induction l with
  | nil => intro st succ nm ds0 _ _ hmem; cases hmem
  | cons p rest ih =>
    intro st succ nm ds0 hnames hnd hmem
    obtain ⟨nm2, dso2⟩ := p
    have hnd1 : ¬ nm2 ∈ rest.map Prod.fst := by
      have hx := hnd
      simp only [List.map_cons, List.nodup_cons] at hx
      exact hx.1
    have hnd2 : (rest.map Prod.fst).Nodup := by
      have hx := hnd
      simp only [List.map_cons, List.nodup_cons] at hx
      exact hx.2
    have hnrest : ∀ p ∈ rest, ∀ ds1,
        (p : String × Option Dataset).2 = some ds1 → Dataset.name ds1 = p.1 := by
      intro q hq; exact hnames q (List.mem_cons_of_mem _ hq)
    rcases List.mem_cons.mp hmem with hhead | htail
    · injection hhead with he1 he2
      subst he1
      subst he2
      have hname : Dataset.name ds0 = nm :=
        hnames (nm, some ds0) (List.mem_cons_self _ _) ds0 rfl
      constructor
      · intro hF
        rw [outputs_loop_cons_some, output_step_fail_eq h onDisk nm ds0 st succ hF]
        exact outputs_loop_false_frame h onDisk rest st false nm hnrest hnd1
      · intro hF hC
        rw [outputs_loop_cons_some, output_step_pass_write_eq h onDisk nm ds0 st succ hF hC]
        have hfr := outputs_loop_false_frame h onDisk rest
          (dump_write h st (update_hashes h ds0) false) succ nm hnrest hnd1
        constructor
        · refine hfr.1.trans ?_
          rw [dump_write_metaFiles, update_hashes_name, hname]
          exact lookup_setEntry_self st.metaFiles nm (update_hashes h ds0).metadata
        · refine hfr.2.trans ?_
          rw [dump_write_dsFiles, update_hashes_name, hname, update_hashes_idem]
          exact lookup_setEntry_self st.dsFiles nm (update_hashes h ds0)
    · cases dso2 with
      | none =>
        exact ih st false nm ds0 hnrest hnd2 htail
      | some ds1 =>
        have hname1 : Dataset.name ds1 = nm2 :=
          hnames (nm2, some ds1) (List.mem_cons_self _ _) ds1 rfl
        have hnmne : ¬ nm = nm2 := by
          intro he
          apply hnd1
          rw [← he]
          exact List.mem_map_of_mem Prod.fst htail
        have h1 := ih (output_step h true false onDisk nm2 ds1 st succ).1
                      (output_step h true false onDisk nm2 ds1 st succ).2
                      nm ds0 hnrest hnd2 htail
        rw [output_step_false_datasets h onDisk nm2 ds1 st succ] at h1
        have hfr := output_step_false_frame h onDisk nm2 ds1 st succ nm hname1 hnmne
        constructor
        · intro hF
          exact ⟨(h1.1 hF).1.trans hfr.1, (h1.1 hF).2.trans hfr.2⟩
        · intro hF hC
          exact h1.2 hF hC

theorem output_step_oc_datasets_self (h : Nat → String) (onDisk : List String)
    (nm : String) (ds0 : Dataset) (st : GState) (succ : Bool)
    (hname : Dataset.name ds0 = nm) :
    (output_step h true true onDisk nm ds0 st succ).1.datasets.lookup nm
      = some ((update_hashes h ds0).metadata) := by
  rw [output_step_oc_eq]
  show (dump_write h
      { st with datasets := setEntry st.datasets nm ((update_hashes h ds0).metadata) }
      (update_hashes h ds0) true).datasets.lookup nm
    = some ((update_hashes h ds0).metadata)
  rw [dump_write_datasets_true, update_hashes_name, hname, update_hashes_idem]
  exact lookup_setEntry_self
    (setEntry st.datasets nm ((update_hashes h ds0).metadata)) nm
    (update_hashes h ds0).metadata

theorem output_step_oc_datasets_ne (h : Nat → String) (onDisk : List String)
    (nm : String) (ds0 : Dataset) (st : GState) (succ : Bool) (k : String)
    (hname : Dataset.name ds0 = nm) (hk : ¬ k = nm) :
    (output_step h true true onDisk nm ds0 st succ).1.datasets.lookup k
      = st.datasets.lookup k := by
  rw [output_step_oc_eq]
  show (dump_write h
      { st with datasets := setEntry st.datasets nm ((update_hashes h ds0).metadata) }
      (update_hashes h ds0) true).datasets.lookup k
    = st.datasets.lookup k
  rw [dump_write_datasets_true, update_hashes_name, hname, update_hashes_idem]
  refine (lookup_setEntry_ne
    (setEntry st.datasets nm ((update_hashes h ds0).metadata)) nm k
    (update_hashes h ds0).metadata hk).trans ?_
  exact lookup_setEntry_ne st.datasets nm k ((update_hashes h ds0).metadata) hk

theorem outputs_loop_true_datasets (h : Nat → String) (onDisk : List String) :
    ∀ (l : DsDict) (st : GState) (succ : Bool) (k : String),
    (∀ p ∈ l, ∀ ds1, (p : String × Option Dataset).2 = some ds1 → Dataset.name ds1 = p.1) →
    (¬ k ∈ l.map Prod.fst →
      (outputs_loop h true true onDisk l st succ).2.1.datasets.lookup k
        = st.datasets.lookup k)
    ∧ (∀ ds0, (k, some ds0) ∈ l → (l.map Prod.fst).Nodup →
      (outputs_loop h true true onDisk l st succ).2.1.datasets.lookup k
        = some ((update_hashes h ds0).metadata)) := by
  intro l
  induction l with
  | nil =>
    intro st succ k hnames
    exact ⟨fun _ => rfl, fun ds0 hmem _ => absurd hmem (List.not_mem_nil _)⟩
  | cons p rest ih =>
    intro st succ k hnames
    obtain ⟨nm2, dso2⟩ := p
    have hnrest : ∀ p ∈ rest, ∀ ds1,
        (p : String × Option Dataset).2 = some ds1 → Dataset.name ds1 = p.1 := by
      intro q hq; exact hnames q (List.mem_cons_of_mem _ hq)
    cases dso2 with
    | none =>
      constructor
      · intro hk
        have hkrest : ¬ k ∈ rest.map Prod.fst := by
          intro hker; apply hk; simp [hker]
        exact (ih st false k hnrest).1 hkrest
      · intro ds0 hmem hnd
        have hnd2 : (rest.map Prod.fst).Nodup := by
          have hx := hnd
          simp only [List.map_cons, List.nodup_cons] at hx
          exact hx.2
        rcases List.mem_cons.mp hmem with hhead | htail
        · injection hhead with he1 he2
          cases he2
        · exact (ih st false k hnrest).2 ds0 htail hnd2
    | some ds1 =>
      have hname1 : Dataset.name ds1 = nm2 :=
        hnames (nm2, some ds1) (List.mem_cons_self _ _) ds1 rfl
      constructor
      · intro hk
        have hknm : ¬ k = nm2 := by
          intro hke; apply hk; simp [hke]
        have hkrest : ¬ k ∈ rest.map Prod.fst := by
          intro hker; apply hk; simp [hker]
        have h1 := (ih (output_step h true true onDisk nm2 ds1 st succ).1
                       (output_step h true true onDisk nm2 ds1 st succ).2 k hnrest).1 hkrest
        exact h1.trans (output_step_oc_datasets_ne h onDisk nm2 ds1 st succ k hname1 hknm)
      · intro ds0 hmem hnd
        have hnd1 : ¬ nm2 ∈ rest.map Prod.fst := by
          have hx := hnd
          simp only [List.map_cons, List.nodup_cons] at hx
          exact hx.1
        have hnd2 : (rest.map Prod.fst).Nodup := by
          have hx := hnd
          simp only [List.map_cons, List.nodup_cons] at hx
          exact hx.2
        rcases List.mem_cons.mp hmem with hhead | htail
        · injection hhead with he1 he2
          subst he1
          injection he2 with he3
          subst he3
          have h1 := (ih (output_step h true true onDisk k ds0 st succ).1
                         (output_step h true true onDisk k ds0 st succ).2 k hnrest).1 hnd1
          exact h1.trans (output_step_oc_datasets_self h onDisk k ds0 st succ hname1)
        · exact (ih (output_step h true true onDisk nm2 ds1 st succ).1
                    (output_step h true true onDisk nm2 ds1 st succ).2 k hnrest).2
            ds0 htail hnd2

theorem xform_loop_single (h : Nat → String) (app : Nat → DsDict → DsDict)
    (wd oc : Bool) (xf : Nat) (dsdict : DsDict) (st : GState) (n : Nat) :
    xform_loop h app wd oc [xf] dsdict st n
      = some ((if (outputs_loop h wd oc (st.metaFiles.map Prod.fst) (app xf dsdict) st true).2.2
               then some (outputs_loop h wd oc (st.metaFiles.map Prod.fst)
                 (app xf dsdict) st true).1
               else none),
              (outputs_loop h wd oc (st.metaFiles.map Prod.fst) (app xf dsdict) st true).2.1,
              n + 1) := by
  have e1 : xform_loop h app wd oc [xf] dsdict st n
      = (if (outputs_loop h wd oc (st.metaFiles.map Prod.fst) (app xf dsdict) st true).2.2
         then xform_loop h app wd oc []
           (outputs_loop h wd oc (st.metaFiles.map Prod.fst) (app xf dsdict) st true).1
           (outputs_loop h wd oc (st.metaFiles.map Prod.fst) (app xf dsdict) st true).2.1
           (n + 1)
         else some (none,
           (outputs_loop h wd oc (st.metaFiles.map Prod.fst) (app xf dsdict) st true).2.1,
           n + 1)) := rfl
  rw [e1]
  by_cases h2 : (outputs_loop h wd oc (st.metaFiles.map Prod.fst)
      (app xf dsdict) st true).2.2 = true
  · rw [if_pos h2, if_pos h2]
    rfl
  · rw [if_neg h2, if_neg h2]

theorem process_edge_eq_xform (h : Nat → String) (app : Nat → DsDict → DsDict)
    (st : GState) (e : String) (edge : Edge) (inputs : DsDict)
    (hfs : fully_satisfied st e = some true)
    (hlk : st.transformers.lookup e = some edge)
    (hli : load_inputs st edge.input_datasets = some inputs) (oc : Bool) :
    process_edge h app st e true oc
      = xform_loop h app true oc edge.transformations inputs st 0 := by
  have e0 : process_edge h app st e true oc
      = (if oc && !true then none
         else match fully_satisfied st e with
           | none => none
           | some false => none
           | some true =>
             match st.transformers.lookup e with
             | none => none
             | some edge =>
               match load_inputs st edge.input_datasets with
               | none => none
               | some inputs =>
                 xform_loop h app true oc edge.transformations inputs st 0) := rfl
  rw [e0, if_neg (by simp), hfs]
  show (match st.transformers.lookup e with
        | none => none
        | some edge =>
          match load_inputs st edge.input_datasets with
          | none => none
          | some inputs => xform_loop h app true oc edge.transformations inputs st 0)
      = xform_loop h app true oc edge.transformations inputs st 0
  rw [hlk]
  show (match load_inputs st edge.input_datasets with
        | none => none
        | some inputs => xform_loop h app true oc edge.transformations inputs st 0)
      = xform_loop h app true oc edge.transformations inputs st 0
  rw [hli]

/-- Claim C4 (confirmed): for a single-transformation edge whose transformer
produces a duplicate-free, consistently named output dictionary,
`process_edge` with `write_dataset=True` and `overwrite_catalog=False`
checks every already-catalogued output against its catalog hash record: the
edge fails (the returned dsdict is `None`) exactly when some output is
`None` or hash-mismatches its catalog entry; a mismatching output's on-disk
metadata and dataset files are left untouched, while every passing output
not already cached on disk is still written (failures are collected
best-effort, not fail-fast); with `overwrite_catalog=True` the catalog
entry of every produced output is replaced unconditionally. -/
theorem c4_process_edge_outputs (h : Nat → String) (app : Nat → DsDict → DsDict)
    (st : GState) (e : String) (edge : Edge) (xf : Nat) (inputs : DsDict)
    (hxf : edge.transformations = [xf])
    (hfs : fully_satisfied st e = some true)
    (hlk : st.transformers.lookup e = some edge)
    (hli : load_inputs st edge.input_datasets = some inputs)
    (hnames : ∀ p ∈ app xf inputs, ∀ ds1,
        (p : String × Option Dataset).2 = some ds1 → Dataset.name ds1 = p.1)
    (hnodup : ((app xf inputs).map Prod.fst).Nodup) :
    (∃ stF,
      process_edge h app st e true false
        = some ((if (app xf inputs).any (out_fails h st.datasets) then none
                 else some ((app xf inputs).map
                   (fun p => (p.1, p.2.map (update_hashes h))))),
                stF, 1)
      ∧ ∀ nm ds0, (nm, some ds0) ∈ app xf inputs →
          ((out_fails h st.datasets (nm, some ds0) = true →
            stF.metaFiles.lookup nm = st.metaFiles.lookup nm
            ∧ stF.dsFiles.lookup nm = st.dsFiles.lookup nm)
           ∧ (out_fails h st.datasets (nm, some ds0) = false →
              (st.metaFiles.map Prod.fst).contains nm = false →
              stF.metaFiles.lookup nm = some ((update_hashes h ds0).metadata)
              ∧ stF.dsFiles.lookup nm = some (update_hashes h ds0))))
    ∧ (∃ r stF', process_edge h app st e true true = some (r, stF', 1)
        ∧ ∀ nm ds0, (nm, some ds0) ∈ app xf inputs →
            stF'.datasets.lookup nm = some ((update_hashes h ds0).metadata)) := by
  have hpe0 : process_edge h app st e true false
      = xform_loop h app true false [xf] inputs st 0 := by
    rw [process_edge_eq_xform h app st e edge inputs hfs hlk hli false, hxf]
  have hpe1 : process_edge h app st e true true
      = xform_loop h app true true [xf] inputs st 0 := by
    rw [process_edge_eq_xform h app st e edge inputs hfs hlk hli true, hxf]
  constructor
  · refine ⟨(outputs_loop h true false (st.metaFiles.map Prod.fst)
        (app xf inputs) st true).2.1, ?_, ?_⟩
    · rw [hpe0, xform_loop_single, outputs_loop_false_succ, outputs_loop_shape]
      cases hA : (app xf inputs).any (out_fails h st.datasets) <;> simp [hA]
    · intro nm ds0 hmem
      exact outputs_loop_false_entry h (st.metaFiles.map Prod.fst)
        (app xf inputs) st true nm ds0 hnames hnodup hmem
  · refine ⟨(if (outputs_loop h true true (st.metaFiles.map Prod.fst)
                 (app xf inputs) st true).2.2
             then some (outputs_loop h true true (st.metaFiles.map Prod.fst)
                 (app xf inputs) st true).1
             else none),
            (outputs_loop h true true (st.metaFiles.map Prod.fst)
               (app xf inputs) st true).2.1, ?_, ?_⟩
    · rw [hpe1, xform_loop_single]
    · intro nm ds0 hmem
      exact (outputs_loop_true_datasets h (st.metaFiles.map Prod.fst)
        (app xf inputs) st true nm hnames).2 ds0 hmem hnodup

/-- The cached copy of `U` (the single input of the C4 edge), hash-fresh. -/
def c4dsU : Dataset := ⟨[("data", 2)], ⟨"U", [], some [("data", c8h 2)]⟩⟩

/-- The transformer output `Y`: its recomputed hashes match the catalog. -/
def c4dsY : Dataset := ⟨[("data", 9)], ⟨"Y", [], none⟩⟩

/-- The transformer output `Z`: its recomputed hashes mismatch the stale
catalog entry. -/
def c4dsZ : Dataset := ⟨[("data", 4)], ⟨"Z", [], none⟩⟩

/-- The concrete transformer-step semantics for C4: step 11 produces the
two-output dictionary `{Y, Z}`. -/
def c4app : Nat → DsDict → DsDict :=
  fun xf d => if xf == 11 then [("Y", some c4dsY), ("Z", some c4dsZ)] else d

/-- The C4 state: `U` cached fresh, neither `Y` nor `Z` on disk, `Y`'s
catalog entry current and `Z`'s catalog entry stale. -/
def c4st : GState :=
  { transformers := [("eU", ⟨[], ["U"], [5]⟩), ("eYZ", ⟨["U"], ["Y", "Z"], [11]⟩)],
    datasets := [("U", ⟨"U", [], some [("data", c8h 2)]⟩),
                 ("Y", ⟨"Y", [], some [("data", c8h 9)]⟩),
                 ("Z", ⟨"Z", [], some [("data", "STALE")]⟩)],
    metaFiles := [("U", c4dsU.metadata)],
    dsFiles := [("U", c4dsU)] }

/-- Witness for C4 at a concrete mixed scenario: output `Y` passes the
catalog hash check, output `Z` fails it, so the edge fails while `Y` is
still written. -/
theorem c4_process_edge_outputs_witness :
    (out_fails c8h c4st.datasets ("Y", some c4dsY) = false)
  ∧ (out_fails c8h c4st.datasets ("Z", some c4dsZ) = true)
  ∧ ((∃ stF,
      process_edge c8h c4app c4st "eYZ" true false
        = some ((if (c4app 11 [("U", some c4dsU)]).any (out_fails c8h c4st.datasets)
                 then none
                 else some ((c4app 11 [("U", some c4dsU)]).map
                   (fun p => (p.1, p.2.map (update_hashes c8h))))),
                stF, 1)
      ∧ ∀ nm ds0, (nm, some ds0) ∈ c4app 11 [("U", some c4dsU)] →
          ((out_fails c8h c4st.datasets (nm, some ds0) = true →
            stF.metaFiles.lookup nm = c4st.metaFiles.lookup nm
            ∧ stF.dsFiles.lookup nm = c4st.dsFiles.lookup nm)
           ∧ (out_fails c8h c4st.datasets (nm, some ds0) = false →
              (c4st.metaFiles.map Prod.fst).contains nm = false →
              stF.metaFiles.lookup nm = some ((update_hashes c8h ds0).metadata)
              ∧ stF.dsFiles.lookup nm = some (update_hashes c8h ds0))))
    ∧ (∃ r stF', process_edge c8h c4app c4st "eYZ" true true = some (r, stF', 1)
        ∧ ∀ nm ds0, (nm, some ds0) ∈ c4app 11 [("U", some c4dsU)] →
            stF'.datasets.lookup nm = some ((update_hashes c8h ds0).metadata))) :=
  ⟨by decide, by decide,
   c4_process_edge_outputs c8h c4app c4st "eYZ" ⟨["U"], ["Y", "Z"], [11]⟩ 11
     [("U", some c4dsU)] (by decide) (by decide) (by decide) (by decide)
     (by
       intro p hp ds1 hds
       have hp' : p ∈ [("Y", some c4dsY), ("Z", some c4dsZ)] := hp
       rcases List.mem_cons.mp hp' with he | he2
       · subst he
         have hds' : some c4dsY = some ds1 := hds
         injection hds' with h1
         subst h1
         rfl
       · rcases List.mem_cons.mp he2 with he | he3
         · subst he
           have hds' : some c4dsZ = some ds1 := hds
           injection hds' with h1
           subst h1
           rfl
         · exact absurd he3 (List.not_mem_nil _))
     (by decide)⟩

end Easydata
